import Mathlib

/-!
A verification development for the Quoridor rules engine and move-selection AI
in `quoridor.js`.  The JavaScript sources are shallowly embedded: JS numbers
holding board coordinates become `Int`, JS numbers holding path costs become
`ℚ` extended with IEEE-style special values (`JNum`), arrays become lists, and
the in-place mutation pattern `fences.push(f); …; fences.pop()` becomes
explicit state passing on the `Game` structure.  The board size is the
constant 9 throughout (`this.size` is set to 9 in the constructor and never
changed).  All definitions are executable.
-/

set_option maxHeartbeats 1000000

namespace Quoridor

/-- Orientation of a fence, `'horizontal'` or `'vertical'` in the source. -/
inductive Orientation where
  | horizontal
  | vertical
deriving DecidableEq, Repr

/-- `class Position { row; col }`.  Coordinates are JS numbers used as
integers; transient out-of-bounds values such as row `-1` occur before the
bounds check, so the fields are `Int`. -/
structure Position where
  row : Int
  col : Int
deriving DecidableEq, Repr

/-- `class Fence { row; col; orientation }`. -/
structure Fence where
  row : Int
  col : Int
  orientation : Orientation
deriving DecidableEq, Repr

/-- `Fence.equals`: equality by value on row, col and orientation. -/
def fenceEquals (f other : Fence) : Bool :=
  decide (f.row = other.row ∧ f.col = other.col ∧ f.orientation = other.orientation)

/-- `Fence.blocksMovement(fromPos, toPos)`: a horizontal fence blocks vertical
movement between its row and row+1 across its two columns; a vertical fence
blocks horizontal movement between its col and col+1 across its two rows. -/
def Fence.blocksMovement (fence : Fence) (fromPos toPos : Position) : Bool :=
  match fence.orientation with
  | .horizontal =>
    if fromPos.col = toPos.col then
      let minRow := min fromPos.row toPos.row
      let maxRow := max fromPos.row toPos.row
      decide (minRow ≤ fence.row ∧ fence.row < maxRow ∧
        fence.col ≤ fromPos.col ∧ fromPos.col ≤ fence.col + 1)
    else false
  | .vertical =>
    if fromPos.row = toPos.row then
      let minCol := min fromPos.col toPos.col
      let maxCol := max fromPos.col toPos.col
      decide (minCol ≤ fence.col ∧ fence.col < maxCol ∧
        fence.row ≤ fromPos.row ∧ fromPos.row ≤ fence.row + 1)
    else false

/-- `class Player`: the fields the engine reads (the display name is part of
the UI layer and is dropped). -/
structure Player where
  position : Position
  goalRow : Int
  fencesRemaining : Int
deriving DecidableEq, Repr

/-- `player.hasWon()`. -/
def Player.hasWon (p : Player) : Bool :=
  decide (p.position.row = p.goalRow)

/-- The state of `class QuoridorGame` that the rules engine touches:
players, placed fences, whose turn it is and the game-over flag
(`this.size` is the constant 9). -/
structure Game where
  players : List Player
  fences : List Fence
  currentPlayerIndex : Nat
  gameOver : Bool
deriving DecidableEq, Repr

/-- `isValidPosition(pos)`: `0 ≤ row,col < 9`. -/
def isValidPosition (pos : Position) : Bool :=
  decide (0 ≤ pos.row ∧ pos.row < 9 ∧ 0 ≤ pos.col ∧ pos.col < 9)

/-- `isPositionOccupied(pos)`: some player stands on `pos`. -/
def isPositionOccupied (g : Game) (pos : Position) : Bool :=
  g.players.any (fun player => decide (player.position = pos))

/-- `isMovementBlocked(fromPos, toPos)`: some committed fence blocks the step. -/
def isMovementBlocked (g : Game) (fromPos toPos : Position) : Bool :=
  g.fences.any (fun fence => fence.blocksMovement fromPos toPos)

/-- `isMovementBlockedByFences(fromPos, toPos, fences)`: same test against an
explicitly supplied (possibly hypothetical) fence set. -/
def isMovementBlockedByFences (fromPos toPos : Position) (fences : List Fence) : Bool :=
  fences.any (fun fence => fence.blocksMovement fromPos toPos)

/-- The direction list of `getValidMoves`: up, down, left, right. -/
def dirList : List (Int × Int) := [(-1, 0), (1, 0), (0, -1), (0, 1)]

/-- The moves contributed by one direction in `getValidMoves`: ordinary step
into a free cell, straight jump over an adjacent pawn, or (when the straight
jump is unavailable) the two diagonal jumps beside the jumped pawn. -/
def movesForDir (g : Game) (player : Player) (d : Int × Int) : List Position :=
  let newPos : Position := ⟨player.position.row + d.1, player.position.col + d.2⟩
  if isValidPosition newPos = false then []
  else if isMovementBlocked g player.position newPos then []
  else if isPositionOccupied g newPos then
    let jumpPos : Position := ⟨newPos.row + d.1, newPos.col + d.2⟩
    if isValidPosition jumpPos ∧ isMovementBlocked g newPos jumpPos = false ∧
        isPositionOccupied g jumpPos = false then
      [jumpPos]
    else
      let diagonalDirections : List (Int × Int) :=
        if d.1 ≠ 0 then [(0, -1), (0, 1)] else [(-1, 0), (1, 0)]
      diagonalDirections.filterMap (fun dd =>
        let diagJumpPos : Position := ⟨newPos.row + dd.1, newPos.col + dd.2⟩
        if isValidPosition diagJumpPos ∧ isMovementBlocked g newPos diagJumpPos = false ∧
            isPositionOccupied g diagJumpPos = false then
          some diagJumpPos
        else none)
  else [newPos]

/-- `getValidMoves(player)`: concatenation of the per-direction moves, in the
source's direction order. -/
def getValidMoves (g : Game) (player : Player) : List Position :=
  dirList.flatMap (movesForDir g player)

/-- One step of `hasPathToGoal`'s neighbor scan: for each direction try the
adjacent cell, and when it is in bounds, unvisited and not fence-blocked,
mark it visited and record it for the queue. -/
def bfsExpand (fences : List Fence) (c : Position) :
    List (Int × Int) → List Position → List Position → List Position × List Position
  | [], visited, adds => (visited, adds)
  | d :: ds, visited, adds =>
    let newPos : Position := ⟨c.row + d.1, c.col + d.2⟩
    if isValidPosition newPos ∧ newPos ∉ visited ∧
        isMovementBlockedByFences c newPos fences = false then
      bfsExpand fences c ds (visited ++ [newPos]) (adds ++ [newPos])
    else
      bfsExpand fences c ds visited adds

/-- The breadth-first loop of `hasPathToGoal`: dequeue, succeed on a goal-row
cell, otherwise enqueue the fresh neighbors.  The fuel argument only bounds
the number of iterations; 100 exceeds the 82 that the visited-set discipline
allows (at most one dequeue per enqueue, at most 81 + 1 enqueues). -/
def bfsLoop (goalRow : Int) (fences : List Fence) :
    Nat → List Position → List Position → Bool
  | 0, _, _ => false
  | _ + 1, [], _ => false
  | fuel + 1, c :: rest, visited =>
    if c.row = goalRow then true
    else
      let expanded := bfsExpand fences c dirList visited []
      bfsLoop goalRow fences fuel (rest ++ expanded.2) expanded.1

/-- `hasPathToGoal(player, fences)`: breadth-first search from the player's
position over the plain 4-neighbor grid, with edges removed where a fence of
`fences` blocks the single step; pawns are ignored and no jump edges exist. -/
def hasPathToGoal (player : Player) (fences : List Fence) : Bool :=
  bfsLoop player.goalRow fences 100 [player.position] [player.position]

/-- `fencesIntersect(fence1, fence2)`: same-orientation fences conflict when
their 2-cell spans overlap on the same line; the perpendicular branch always
returns `false` (with integer coordinates two perpendicular fences can never
strictly cross, they can only meet at posts, which the post-overlap check
handles). -/
def fencesIntersect (fence1 fence2 : Fence) : Bool :=
  if fence1.orientation = fence2.orientation then
    match fence1.orientation with
    | .horizontal =>
      decide (fence1.row = fence2.row) &&
        !(decide (fence1.col + 1 < fence2.col) || decide (fence2.col + 1 < fence1.col))
    | .vertical =>
      decide (fence1.col = fence2.col) &&
        !(decide (fence1.row + 1 < fence2.row) || decide (fence2.row + 1 < fence1.row))
  else
    false

/-- The body of the loop in `wouldFencePostOverlap`: both fences place their
post at grid position `(2·row+1, 2·col+1)`, and overlap means both doubled
coordinates agree. -/
def fencePostsCoincide (fence existingFence : Fence) : Bool :=
  decide (2 * fence.row + 1 = 2 * existingFence.row + 1 ∧
    2 * fence.col + 1 = 2 * existingFence.col + 1)

/-- `wouldFencePostOverlap(fence)`: some committed fence has the same post. -/
def wouldFencePostOverlap (g : Game) (fence : Fence) : Bool :=
  g.fences.any (fencePostsCoincide fence)

/-- `isValidFencePlacement(fence)`: bounds, duplicate, post overlap,
intersection and path-preservation checks, in the source's order.  The path
check runs over the temporary fence set `fences ++ [fence]`; the committed
state is never touched. -/
def isValidFencePlacement (g : Game) (fence : Fence) : Bool :=
  if fence.row < 0 ∨ 9 - 1 ≤ fence.row then false
  else if fence.col < 0 ∨ 9 - 1 ≤ fence.col then false
  else if g.fences.any (fun f => fenceEquals f fence) then false
  else if wouldFencePostOverlap g fence then false
  else if g.fences.any (fun existingFence => fencesIntersect fence existingFence) then false
  else
    let tempFences := g.fences ++ [fence]
    g.players.all (fun player => hasPathToGoal player tempFences)

/-- Decrement `fencesRemaining` of the player at index `idx`
(`this.getCurrentPlayer().fencesRemaining--`). -/
def decFencesAt : Nat → List Player → List Player
  | _, [] => []
  | 0, p :: ps => { p with fencesRemaining := p.fencesRemaining - 1 } :: ps
  | n + 1, p :: ps => p :: decFencesAt n ps

/-- The commit path of `handleFenceClick`: a fence is pushed and the current
player's fence count decremented only after `isValidFencePlacement` succeeds;
on failure the state is returned unchanged (modelled as `none`). -/
def applyFence (g : Game) (fence : Fence) : Option Game :=
  if isValidFencePlacement g fence then
    some { g with
      fences := g.fences ++ [fence],
      players := decFencesAt g.currentPlayerIndex g.players }
  else
    none

/-! ### The jump scenario of C1 -/

/-- Player A of the jump scenario: at `(4,4)`. -/
def jumpPlayerA : Player := ⟨⟨4, 4⟩, 0, 10⟩

/-- The jump scenario before any fence: A at `(4,4)`, B at `(3,4)`. -/
def jumpGameNoFence : Game :=
  { players := [jumpPlayerA, ⟨⟨3, 4⟩, 8, 10⟩],
    fences := [], currentPlayerIndex := 0, gameOver := false }

/-- The jump scenario after the horizontal fence at `(2,4)` is placed. -/
def jumpGameFenced : Game :=
  { jumpGameNoFence with fences := [⟨2, 4, .horizontal⟩] }

/-! ### The graph that `hasPathToGoal` searches

`StepFree fences x y` is one edge of the plain 4-neighbor grid graph with an
edge removed wherever a fence of `fences` blocks the single step.  It ignores
pawn occupancy and contains no jump edges. -/

/-- One unblocked in-bounds single step of the fence graph. -/
def StepFree (fences : List Fence) (x y : Position) : Prop :=
  (∃ d ∈ dirList, y = ⟨x.row + d.1, x.col + d.2⟩) ∧
    isValidPosition y = true ∧ isMovementBlockedByFences x y fences = false

/-- Reachability in the fence graph. -/
def ReachFree (fences : List Fence) : Position → Position → Prop :=
  Relation.ReflTransGen (StepFree fences)

/-- The 81 board cells. -/
def allCells : List Position :=
  (List.range 81).map (fun i => ⟨(i / 9 : Nat), (i % 9 : Nat)⟩)

/-- How many board cells the search has not yet visited. -/
def unvisitedCount (visited : List Position) : Nat :=
  (allCells.filter (fun q => decide (q ∉ visited))).length

/-- The initial board of `newGame()`: players at `(8,4)` goal 0 and `(0,4)`
goal 8, ten fences each, no fences placed, player 0 to move. -/
def initGame : Game :=
  { players := [⟨⟨8, 4⟩, 0, 10⟩, ⟨⟨0, 4⟩, 8, 10⟩],
    fences := [], currentPlayerIndex := 0, gameOver := false }

/-! ### The weighted-distance engine of the AI -/

/-- JS numbers as the AI's distance computations produce them: an exact
rational for finite values plus the IEEE special values that arithmetic on
unreachable positions yields (`Infinity`, `-Infinity`, `NaN`). -/
inductive JNum where
  | num (q : ℚ)
  | posInf
  | negInf
  | nan
deriving DecidableEq, Repr

/-- JS subtraction on `JNum`. -/
def JNum.sub : JNum → JNum → JNum
  | num a, num b => num (a - b)
  | num _, posInf => negInf
  | num _, negInf => posInf
  | posInf, num _ => posInf
  | posInf, posInf => nan
  | posInf, negInf => posInf
  | negInf, num _ => negInf
  | negInf, posInf => negInf
  | negInf, negInf => nan
  | nan, _ => nan
  | _, nan => nan

/-- JS `<` on `JNum` (`false` whenever `NaN` is involved). -/
def JNum.ltb : JNum → JNum → Bool
  | num a, num b => decide (a < b)
  | num _, posInf => true
  | negInf, num _ => true
  | negInf, posInf => true
  | _, _ => false

/-- JS `>` on `JNum`. -/
def JNum.gtb (a b : JNum) : Bool := JNum.ltb b a

/-- JS `<=` on `JNum` (`false` whenever `NaN` is involved). -/
def JNum.leb : JNum → JNum → Bool
  | num a, num b => decide (a ≤ b)
  | num _, posInf => true
  | negInf, num _ => true
  | negInf, posInf => true
  | posInf, posInf => true
  | negInf, negInf => true
  | _, _ => false

/-- JS `>=` on `JNum`. -/
def JNum.geb (a b : JNum) : Bool := JNum.leb b a

/-- `getFenceAffectedSquares(fence)`: the four cells around the fence's
centre post, in the source's push order for each orientation. -/
def getFenceAffectedSquares (fence : Fence) : List Position :=
  match fence.orientation with
  | .horizontal =>
    [⟨fence.row, fence.col⟩, ⟨fence.row, fence.col + 1⟩,
      ⟨fence.row + 1, fence.col⟩, ⟨fence.row + 1, fence.col + 1⟩]
  | .vertical =>
    [⟨fence.row, fence.col⟩, ⟨fence.row + 1, fence.col⟩,
      ⟨fence.row, fence.col + 1⟩, ⟨fence.row + 1, fence.col + 1⟩]

/-- `getDistanceToFence(position, fence)`: minimum Manhattan distance from
the position to the fence's four affected squares. -/
def getDistanceToFence (position : Position) (fence : Fence) : Int :=
  match (getFenceAffectedSquares fence).map
      (fun s => |position.row - s.row| + |position.col - s.col|) with
  | [] => 0
  | x :: xs => xs.foldl min x

/-- `calculateFenceProximityPenalty(position)`: graded by the distance to the
nearest committed fence; zero when no fence is placed. -/
def calculateFenceProximityPenalty (g : Game) (position : Position) : ℚ :=
  match g.fences with
  | [] => 0
  | f :: fs =>
    let minDistance := fs.foldl
      (fun acc fence => min acc (getDistanceToFence position fence))
      (getDistanceToFence position f)
    if minDistance = 0 then 1/10
    else if minDistance = 1 then 1/20
    else if minDistance = 2 then 3/100
    else if minDistance = 3 then 1/100
    else 0

/-- `calculateOpposingPlayerPenalty(position, currentPlayer)`: 0.1 when the
cell lies in the 8-neighborhood of the player opposing `currentPlayer`
(the source's `p !== currentPlayer` is modelled structurally, and a missing
`currentPlayer` finds the first player as JS's `find` does). -/
def calculateOpposingPlayerPenalty (g : Game) (position : Position)
    (currentPlayer : Option Player) : ℚ :=
  match g.players.find? (fun p => !(decide (currentPlayer = some p))) with
  | none => 0
  | some opposingPlayer =>
    let rowDiff := |position.row - opposingPlayer.position.row|
    let colDiff := |position.col - opposingPlayer.position.col|
    if rowDiff ≤ 1 ∧ colDiff ≤ 1 ∧ ¬(rowDiff = 0 ∧ colDiff = 0) then 1/10 else 0

/-- Stable insertion, placing the new entry after existing entries of equal
distance; folding it from the left models the stable JS
`queue.sort((a, b) => a.distance - b.distance)`. -/
def insertByDist (x : Position × ℚ) : List (Position × ℚ) → List (Position × ℚ)
  | [] => [x]
  | y :: ys => if y.2 ≤ x.2 then y :: insertByDist x ys else x :: y :: ys

/-- Stable ascending sort of the priority queue by distance. -/
def sortByDist (l : List (Position × ℚ)) : List (Position × ℚ) :=
  l.foldl (fun acc x => insertByDist x acc) []

/-- The relaxation comparison `newDistance < distances[moveKey]` (`none`
models the `Infinity` initialisation). -/
def ltOptQ (q : ℚ) : Option ℚ → Bool
  | none => true
  | some x => decide (q < x)

/-- The loop of `dijkstraDistance`: sort the queue, pop the nearest node,
skip it when already visited, succeed with its distance on the goal row, and
otherwise relax all jump-aware moves from it with fence-proximity and
opponent-adjacency penalties.  The fuel of 1000 exceeds the possible pops
(at most 81 relaxation rounds of at most 8 pushes each). -/
def dijkstraLoop (g : Game) (goalRow : Int) :
    Nat → List (Position × ℚ) → (Position → Option ℚ) → List Position → JNum
  | 0, _, _, _ => .posInf
  | _ + 1, [], _, _ => .posInf
  | fuel + 1, queue, distances, visited =>
    match sortByDist queue with
    | [] => .posInf
    | (pos, d) :: rest =>
      if pos ∈ visited then dijkstraLoop g goalRow fuel rest distances visited
      else
        let visited2 := visited ++ [pos]
        if pos.row = goalRow then .num d
        else
          let tempPlayer : Player := ⟨pos, goalRow, 0⟩
          let possibleMoves := getValidMoves g tempPlayer
          let relaxed := possibleMoves.foldl
            (fun (acc : List (Position × ℚ) × (Position → Option ℚ)) move =>
              if move ∈ visited2 then acc
              else
                let fencePenalty := calculateFenceProximityPenalty g move
                let currentPlayer := g.players.find? (fun p => decide (p.goalRow = goalRow))
                let opposingPlayerPenalty :=
                  calculateOpposingPlayerPenalty g move currentPlayer
                let newDistance := d + (1 + fencePenalty + opposingPlayerPenalty)
                if ltOptQ newDistance (acc.2 move) then
                  (acc.1 ++ [(move, newDistance)],
                    fun p => if p = move then some newDistance else acc.2 p)
                else acc)
            (rest, distances)
          dijkstraLoop g goalRow fuel relaxed.1 relaxed.2 visited2

/-- `dijkstraDistance(startPos, goalRow)`: the AI's weighted distance; the
start gets distance 0 and every other cell starts at `Infinity` (`none`). -/
def dijkstraDistance (g : Game) (startPos : Position) (goalRow : Int) : JNum :=
  dijkstraLoop g goalRow 1000 [(startPos, 0)]
    (fun p => if p = startPos then some 0 else none) []

/-- The path reconstruction of `getShortestPathFromPosition`: walk the
`previous` chain, prepending each cell. -/
def buildPath (previous : Position → Option Position) :
    Nat → Position → List Position → List Position
  | 0, p, acc => p :: acc
  | fuel + 1, p, acc =>
    match previous p with
    | none => p :: acc
    | some q => buildPath previous fuel q (p :: acc)

/-- The loop of `getShortestPathFromPosition`: the same search as
`dijkstraLoop` but recording `previous` links, with the opponent-adjacency
penalty taken relative to the actual player, and returning the reconstructed
path once a goal-row node is popped. -/
def pathLoop (g : Game) (player : Player) :
    Nat → List (Position × ℚ) → (Position → Option ℚ) →
      (Position → Option Position) → List Position → List Position
  | 0, _, _, _, _ => []
  | _ + 1, [], _, _, _ => []
  | fuel + 1, queue, distances, previous, visited =>
    match sortByDist queue with
    | [] => []
    | (pos, d) :: rest =>
      if pos ∈ visited then pathLoop g player fuel rest distances previous visited
      else
        let visited2 := visited ++ [pos]
        if pos.row = player.goalRow then buildPath previous 100 pos []
        else
          let tempPlayer : Player := ⟨pos, player.goalRow, player.fencesRemaining⟩
          let possibleMoves := getValidMoves g tempPlayer
          let relaxed := possibleMoves.foldl
            (fun (acc : List (Position × ℚ) × (Position → Option ℚ) ×
                (Position → Option Position)) move =>
              if move ∈ visited2 then acc
              else
                let fencePenalty := calculateFenceProximityPenalty g move
                let opposingPlayerPenalty :=
                  calculateOpposingPlayerPenalty g move (some player)
                let newDistance := d + (1 + fencePenalty + opposingPlayerPenalty)
                if ltOptQ newDistance (acc.2.1 move) then
                  (acc.1 ++ [(move, newDistance)],
                    fun p => if p = move then some newDistance else acc.2.1 p,
                    fun p => if p = move then some pos else acc.2.2 p)
                else acc)
            (rest, distances, previous)
          pathLoop g player fuel relaxed.1 relaxed.2.1 relaxed.2.2 visited2

/-- `getShortestPathFromPosition(player)`: the path component of the
reconstruction Dijkstra run (the caller only uses the path). -/
def getShortestPathFromPosition (g : Game) (player : Player) : List Position :=
  pathLoop g player 1000 [(player.position, 0)]
    (fun p => if p = player.position then some 0 else none) (fun _ => none) []

/-- `findBestMoveWithDijkstra(player)`: follow `path[1]` of the reconstructed
optimal path when available, else fall back to the valid move of minimum
weighted distance. -/
def findBestMoveWithDijkstra (g : Game) (player : Player) : Option Position :=
  let validMoves := getValidMoves g player
  if validMoves.isEmpty then none
  else
    let path := getShortestPathFromPosition g player
    if path.length ≤ 1 then
      (validMoves.foldl
        (fun (acc : Option Position × JNum) move =>
          let distance := dijkstraDistance g move player.goalRow
          if JNum.ltb distance acc.2 then (some move, distance) else acc)
        (none, .posInf)).1
    else
      match path.get? 1 with
      | some nextOptimalPosition =>
        match validMoves.find? (fun move =>
            decide (move.row = nextOptimalPosition.row ∧
              move.col = nextOptimalPosition.col)) with
        | some bestMove => some bestMove
        | none => validMoves.head?
      | none => validMoves.head?

/-- `findWinningMove(game, player, validMoves)` (the game argument is
unused in the source): the first valid move on the goal row. -/
def findWinningMove (player : Player) (validMoves : List Position) : Option Position :=
  validMoves.find? (fun move => decide (move.row = player.goalRow))

/-! ### The AI's fence finders, with the mutate-then-undo pattern made
explicit as state passing -/

/-- `Math.max(0, Math.min(7, x))`. -/
def clamp07 (x : Int) : Int := max 0 (min 7 x)

/-- `getDirectBlockingFences(opponent)`: the two horizontal fences directly
in front of the opponent relative to its direction of travel, at column
offsets `col-1` and `col`, clamped to `[0,7]`. -/
def getDirectBlockingFences (opponent : Player) : List Fence :=
  let goalDirection : Int := if opponent.goalRow < opponent.position.row then -1 else 1
  if goalDirection = -1 then
    let fenceRow := opponent.position.row - 1
    [⟨fenceRow, clamp07 (opponent.position.col - 1), .horizontal⟩,
      ⟨fenceRow, clamp07 opponent.position.col, .horizontal⟩]
  else
    let fenceRow := opponent.position.row
    [⟨fenceRow, clamp07 (opponent.position.col - 1), .horizontal⟩,
      ⟨fenceRow, clamp07 opponent.position.col, .horizontal⟩]

/-- `getSideBlockingFences(opponent)`: vertical fences beside the opponent
and one row above, where in bounds, in the source's push order. -/
def getSideBlockingFences (opponent : Player) : List Fence :=
  (if 0 < opponent.position.col then
    [(⟨opponent.position.row, opponent.position.col - 1, .vertical⟩ : Fence)] else []) ++
  (if opponent.position.col < 8 then
    [(⟨opponent.position.row, opponent.position.col, .vertical⟩ : Fence)] else []) ++
  (if 0 < opponent.position.row then
    (if 0 < opponent.position.col then
      [(⟨opponent.position.row - 1, opponent.position.col - 1, .vertical⟩ : Fence)] else []) ++
    (if opponent.position.col < 8 then
      [(⟨opponent.position.row - 1, opponent.position.col, .vertical⟩ : Fence)] else [])
  else [])

/-- `getValidFencePlacements(game)`: every candidate in
`[0,7] × [0,7] × {horizontal, vertical}` passing validation, in scan order. -/
def getValidFencePlacements (g : Game) : List Fence :=
  (List.range 8).flatMap (fun row =>
    (List.range 8).flatMap (fun col =>
      ([Orientation.horizontal, Orientation.vertical].map
        (fun o => (⟨(row : Int), (col : Int), o⟩ : Fence))).filter
        (fun fence => isValidFencePlacement g fence)))

/-- `game.fences.push(fence)`. -/
def pushFence (g : Game) (fence : Fence) : Game :=
  { g with fences := g.fences ++ [fence] }

/-- `game.fences.pop()` (as used here, always dropping a just-pushed test
fence). -/
def popFence (g : Game) : Game :=
  { g with fences := g.fences.dropLast }

/-- The candidate loop shared verbatim by `findStrategicFence` and
`findSideFence`: for each candidate that validates, push it, re-run both
weighted distances, pop it, and keep the candidate with the largest strictly
positive advantage increase (earliest on ties). -/
def advantageLoop (opponent aiPlayer : Player) (currentAdvantage : JNum) :
    Game → List Fence → Option Fence → JNum → Option Fence × Game
  | g, [], bestFence, _ => (bestFence, g)
  | g, fence :: rest, bestFence, bestAdvantageIncrease =>
    if isValidFencePlacement g fence then
      let g1 := pushFence g fence
      let newHumanDistance := dijkstraDistance g1 opponent.position opponent.goalRow
      let newAiDistance := dijkstraDistance g1 aiPlayer.position aiPlayer.goalRow
      let newAdvantage := JNum.sub newHumanDistance newAiDistance
      let g2 := popFence g1
      let advantageIncrease := JNum.sub newAdvantage currentAdvantage
      if JNum.gtb advantageIncrease bestAdvantageIncrease then
        advantageLoop opponent aiPlayer currentAdvantage g2 rest (some fence) advantageIncrease
      else
        advantageLoop opponent aiPlayer currentAdvantage g2 rest bestFence bestAdvantageIncrease
    else
      advantageLoop opponent aiPlayer currentAdvantage g rest bestFence bestAdvantageIncrease

/-- `findStrategicFence(game, opponent)`: try the two direct blocking
fences, keeping the one that maximises the advantage increase. -/
def findStrategicFence (g : Game) (opponent : Player) : Option Fence × Game :=
  match g.players.find? (fun p => !(decide (p = opponent))) with
  | none => (none, g)
  | some aiPlayer =>
    let currentHumanDistance := dijkstraDistance g opponent.position opponent.goalRow
    let currentAiDistance := dijkstraDistance g aiPlayer.position aiPlayer.goalRow
    let currentAdvantage := JNum.sub currentHumanDistance currentAiDistance
    advantageLoop opponent aiPlayer currentAdvantage g
      (getDirectBlockingFences opponent) none (.num 0)

/-- `findSideFence(game, opponent)`: the same loop over the shuffled side
blocking fences (the in-place Fisher-Yates shuffle is supplied as an
oracle). -/
def findSideFence (g : Game) (opponent : Player)
    (shuffle : List Fence → List Fence) : Option Fence × Game :=
  match g.players.find? (fun p => !(decide (p = opponent))) with
  | none => (none, g)
  | some aiPlayer =>
    let sideBlockingFences := shuffle (getSideBlockingFences opponent)
    let currentHumanDistance := dijkstraDistance g opponent.position opponent.goalRow
    let currentAiDistance := dijkstraDistance g aiPlayer.position aiPlayer.goalRow
    let currentAdvantage := JNum.sub currentHumanDistance currentAiDistance
    advantageLoop opponent aiPlayer currentAdvantage g sideBlockingFences none (.num 0)

/-- The candidate loop of `findHighImpactFence`: candidates are
pre-validated, and one qualifies when its advantage increase is at least 3
and beats the best so far. -/
def highImpactLoop (opponent aiPlayer : Player) (currentAdvantage : JNum) :
    Game → List Fence → Option Fence → JNum → Option Fence × Game
  | g, [], bestFence, _ => (bestFence, g)
  | g, fence :: rest, bestFence, maxAdvantageIncrease =>
    let g1 := pushFence g fence
    let newHumanDistance := dijkstraDistance g1 opponent.position opponent.goalRow
    let newAiDistance := dijkstraDistance g1 aiPlayer.position aiPlayer.goalRow
    let newAdvantage := JNum.sub newHumanDistance newAiDistance
    let g2 := popFence g1
    let advantageIncrease := JNum.sub newAdvantage currentAdvantage
    if JNum.geb advantageIncrease (.num 3) &&
        JNum.gtb advantageIncrease maxAdvantageIncrease then
      highImpactLoop opponent aiPlayer currentAdvantage g2 rest (some fence) advantageIncrease
    else
      highImpactLoop opponent aiPlayer currentAdvantage g2 rest bestFence maxAdvantageIncrease

/-- `findHighImpactFence(game, opponent)`: over all (shuffled) legal fence
placements, the one increasing the advantage by at least 3 the most. -/
def findHighImpactFence (g : Game) (opponent : Player)
    (shuffle : List Fence → List Fence) : Option Fence × Game :=
  match g.players.find? (fun p => !(decide (p = opponent))) with
  | none => (none, g)
  | some aiPlayer =>
    let currentHumanDistance := dijkstraDistance g opponent.position opponent.goalRow
    let currentAiDistance := dijkstraDistance g aiPlayer.position aiPlayer.goalRow
    let currentAdvantage := JNum.sub currentHumanDistance currentAiDistance
    let validFences := shuffle (getValidFencePlacements g)
    highImpactLoop opponent aiPlayer currentAdvantage g validFences none (.num 0)

/-! ### The bot2 decision pipeline -/

/-- The three direction names the opening patterns use. -/
inductive MoveDir where
  | left
  | right
  | down
deriving DecidableEq, Repr

/-- The direction table of `findBot2OpeningMove`. -/
def dirOfMoveDir : MoveDir → Int × Int
  | .left => (0, -1)
  | .right => (0, 1)
  | .down => (1, 0)

/-- The per-game state of `QuoridorAI` that the bot2 pipeline reads and
writes (`humanMoveHistory` and `bestHumanMove` are write-only diagnostics and
are not modelled). -/
structure AiState where
  moveCount : Nat
  previousPosition : Option Position
  bot2OpeningPattern : Option (List MoveDir)
  bot2OpeningStep : Nat
deriving DecidableEq, Repr

/-- The eight weighted opening patterns of `findBot2OpeningMove`, in source
order: six of weight 2 and the two 3-step pure-lateral ones of weight 1. -/
def bot2Patterns : List (List MoveDir × ℚ) :=
  [([.left, .left], 2), ([.down, .left], 2), ([.down, .right], 2),
    ([.right, .right], 2), ([.left, .down, .left], 2), ([.right, .down, .right], 2),
    ([.left, .left, .left], 1), ([.right, .right, .right], 1)]

/-- `patterns.reduce((sum, pattern) => sum + pattern.weight, 0)`. -/
def bot2TotalWeight : ℚ :=
  bot2Patterns.foldl (fun sum pattern => sum + pattern.2) 0

/-- The weighted-selection walk: subtract each weight from the draw and pick
the first pattern at which the running value drops to 0 or below. -/
def selectLoop : ℚ → List (List MoveDir × ℚ) → Option (List MoveDir)
  | _, [] => none
  | r, (moves, weight) :: rest =>
    if r - weight ≤ 0 then some moves else selectLoop (r - weight) rest

/-- `findBot2OpeningMove(game, player)`: select (once) a weighted random
pattern, then per call play its next scripted step when that step is
currently a valid move; otherwise abandon the opening and fall back to the
best move.  `rPat` is the `Math.random()` draw used for selection. -/
def findBot2OpeningMove (st : AiState) (g : Game) (player : Player) (rPat : ℚ) :
    Option Position × AiState :=
  let init :=
    match st.bot2OpeningPattern with
    | some pattern => (pattern, st)
    | none =>
      let selectedPattern := selectLoop (rPat * bot2TotalWeight) bot2Patterns
      let chosen := selectedPattern.getD [.left, .left]
      (chosen, { st with bot2OpeningPattern := some chosen, bot2OpeningStep := 0 })
  let pattern := init.1
  let st1 := init.2
  if pattern.length ≤ st1.bot2OpeningStep then (none, st1)
  else
    match pattern.get? st1.bot2OpeningStep with
    | none => (none, st1)
    | some direction =>
      let d := dirOfMoveDir direction
      let validMoves := getValidMoves g player
      let targetPos : Position := ⟨player.position.row + d.1, player.position.col + d.2⟩
      match validMoves.find? (fun move => decide (move = targetPos)) with
      | some desiredMove =>
        (some desiredMove, { st1 with bot2OpeningStep := st1.bot2OpeningStep + 1 })
      | none =>
        (findBestMoveWithDijkstra g player, { st1 with bot2OpeningPattern := none })

/-- An action the AI returns (`{type: 'move'}` or `{type: 'fence'}`). -/
inductive AIDecision where
  | move (position : Position)
  | fence (fence : Fence)
deriving DecidableEq, Repr

/-- The randomness consumed by one bot2 decision: the opening-gate draw, the
pattern-selection draw, and the two in-place Fisher-Yates shuffles supplied
as oracles. -/
structure AiRng where
  rGate : ℚ
  rPat : ℚ
  shuffleHigh : List Fence → List Fence
  shuffleSide : List Fence → List Fence

/-- The defensive-fence step of `makeSimpleMove`: try the direct blocking
fence first and the side blocking fence only when no direct candidate
qualified. -/
def bot2DefensiveFence (g : Game) (opponent : Player)
    (shuffleSide : List Fence → List Fence) : Option Fence × Game :=
  match findStrategicFence g opponent with
  | (some f, g2) => (some f, g2)
  | (none, g2) => findSideFence g2 opponent shuffleSide

/-- The movement tail of `makeSimpleMove`: the Dijkstra move when available,
else the first valid move, else no action. -/
def bot2MovementDecision (st : AiState) (g : Game) (player : Player)
    (validMoves : List Position) : Option AIDecision × AiState × Game :=
  match findBestMoveWithDijkstra g player with
  | some bestMove => (some (.move bestMove), st, g)
  | none =>
    match validMoves with
    | fallbackMove :: _ => (some (.move fallbackMove), st, g)
    | [] => (none, st, g)

/-- `makeSimpleMove(game, player)`: the bot2 priority chain — opening book
(while `moveCount ≤ 1`, with probability 0.75), immediate win, high-impact
fence, defensive fence (direct then side) when the opponent is close, then
movement. -/
def makeSimpleMove (st : AiState) (g : Game) (player : Player) (rng : AiRng) :
    Option AIDecision × AiState × Game :=
  match g.players.find? (fun p => !(decide (p = player))) with
  | none => (none, st, g)
  | some opponent =>
    let opening :=
      if st.moveCount ≤ 1 ∧ rng.rGate < 3 / 4 then findBot2OpeningMove st g player rng.rPat
      else (none, st)
    match opening with
    | (some pos, st1) => (some (.move pos), st1, g)
    | (none, st1) =>
      let validMoves := getValidMoves g player
      let winning := if validMoves.isEmpty then none else findWinningMove player validMoves
      match winning with
      | some w => (some (.move w), st1, g)
      | none =>
        let opponentDistanceToGoal := dijkstraDistance g opponent.position opponent.goalRow
        let opponentRowDistanceToGoal := |opponent.position.row - opponent.goalRow|
        if validMoves.isEmpty then (none, st1, g)
        else
          let hiPair :=
            if 0 < player.fencesRemaining then findHighImpactFence g opponent rng.shuffleHigh
            else (none, g)
          match hiPair with
          | (some f, g1) => (some (.fence f), st1, g1)
          | (none, g1) =>
            let shouldPlaceFence := 0 < player.fencesRemaining ∧
              JNum.leb opponentDistanceToGoal (.num 3) = true ∧
              opponentRowDistanceToGoal ≤ 4
            if shouldPlaceFence then
              match bot2DefensiveFence g1 opponent rng.shuffleSide with
              | (some f, g2) => (some (.fence f), st1, g2)
              | (none, g2) => bot2MovementDecision st1 g2 player validMoves
            else bot2MovementDecision st1 g1 player validMoves

/-- The `AiState` that `makeMove` hands to the bot logic: the previous
position recorded and `moveCount` already incremented. -/
def makeMoveState (st : AiState) (player : Player) : AiState :=
  { st with
    previousPosition := some player.position,
    moveCount := st.moveCount + 1 }

/-- `QuoridorAI.makeMove(game, player)` on the canonical bot2 route: record
the previous position, increment `moveCount`, then run `makeSimpleMove`
(`updateHumanTracking` only writes the unmodelled diagnostics). -/
def makeMove (st : AiState) (g : Game) (player : Player) (rng : AiRng) :
    Option AIDecision × AiState × Game :=
  makeSimpleMove (makeMoveState st player) g player rng

/-- Modelled from the amended claim: one selection step keeping the
candidate whose advantage increase strictly beats the best so far. -/
def selectBestStep (legal : Fence → Bool) (inc : Fence → JNum)
    (acc : Option Fence × JNum) (fence : Fence) : Option Fence × JNum :=
  if legal fence = true ∧ JNum.gtb (inc fence) acc.2 = true then (some fence, inc fence)
  else acc

/-- The advantage increase a candidate fence would produce relative to a
given current advantage: both weighted distances re-run with the fence
pushed, minus the current advantage. -/
def advantageIncreaseOf (opponent aiPlayer : Player) (currentAdvantage : JNum)
    (g : Game) (fence : Fence) : JNum :=
  JNum.sub
    (JNum.sub (dijkstraDistance (pushFence g fence) opponent.position opponent.goalRow)
      (dijkstraDistance (pushFence g fence) aiPlayer.position aiPlayer.goalRow))
    currentAdvantage

/-- `fenceAdvantageIncrease g opponent aiPlayer fence`: the advantage
increase of a candidate over the committed board's current advantage. -/
def fenceAdvantageIncrease (g : Game) (opponent aiPlayer : Player) : Fence → JNum :=
  advantageIncreaseOf opponent aiPlayer
    (JNum.sub (dijkstraDistance g opponent.position opponent.goalRow)
      (dijkstraDistance g aiPlayer.position aiPlayer.goalRow)) g

/-- Modelled from the amended claim: among the candidates, the legal one
with the largest strictly positive advantage increase, earliest on ties. -/
def bestAdvantageFence (g : Game) (opponent aiPlayer : Player)
    (candidates : List Fence) : Option Fence :=
  (candidates.foldl (selectBestStep (fun f => isValidFencePlacement g f)
    (fenceAdvantageIncrease g opponent aiPlayer)) (none, JNum.num 0)).1

/-- Modelled from the claim: the first direct-blocking candidate that is
legal and strictly increases the opponent's weighted distance. -/
def firstOppIncreasingDirectFence (g : Game) (opponent : Player) : Option Fence :=
  (getDirectBlockingFences opponent).find? (fun fence =>
    isValidFencePlacement g fence &&
      JNum.gtb (dijkstraDistance (pushFence g fence) opponent.position opponent.goalRow)
        (dijkstraDistance g opponent.position opponent.goalRow))

/-- C5 as stated: whenever the defensive-fence branch triggers (the AI has
fences left, the opponent's weighted distance is at most 3 and its raw row
distance at most 4), the direct-blocking fence chosen is the first legal
candidate that strictly increases the opponent's weighted distance. -/
def claimC5 : Prop :=
  ∀ (g : Game) (opponent aiPlayer : Player),
    g.players.find? (fun p => !(decide (p = opponent))) = some aiPlayer →
    0 < aiPlayer.fencesRemaining →
    JNum.leb (dijkstraDistance g opponent.position opponent.goalRow) (JNum.num 3) = true →
    |opponent.position.row - opponent.goalRow| ≤ 4 →
    (findStrategicFence g opponent).1 = firstOppIncreasingDirectFence g opponent

/-- The opponent of the defensive-fence counterexample: two rows from its
goal with a clear path. -/
def defendOpponent : Player := ⟨⟨3, 4⟩, 0, 10⟩

/-- The AI of the defensive-fence counterexample: placed at `(1,2)` so that
its adjacency penalty falls on the opponent's left detour. -/
def defendAi : Player := ⟨⟨1, 2⟩, 8, 10⟩

/-- The defensive-fence counterexample board: empty, with the branch's
trigger conditions all satisfied. -/
def defendGame : Game :=
  { players := [defendOpponent, defendAi],
    fences := [], currentPlayerIndex := 0, gameOver := false }

/-- C4 as stated: the opening gate passes on each of the AI's first two
decisions (pre-call `moveCount ≤ 1`) whenever the draw is below 0.75. -/
def claimC4 : Prop :=
  ∀ (st : AiState) (player : Player) (r : ℚ),
    st.moveCount ≤ 1 → 0 ≤ r → r < 3 / 4 →
    ((makeMoveState st player).moveCount ≤ 1 ∧ r < 3 / 4)

/-! ### The weighted distance on an empty board (C6) -/

/-- The C6 scenario: fence-free board, searcher at `(8,4)` with goal row 0,
opponent parked at `(0,0)`, far from the whole column-4 path. -/
def weightedDistanceGame : Game :=
  { players := [⟨⟨8, 4⟩, 0, 10⟩, ⟨⟨0, 0⟩, 8, 10⟩],
    fences := [], currentPlayerIndex := 0, gameOver := false }

/-! ### Reachable game states (C7) -/

/-- `player.position = targetMove` for the player at index `idx`. -/
def setPlayerPos : Nat → Position → List Player → List Player
  | _, _, [] => []
  | 0, pos, p :: ps => { p with position := pos } :: ps
  | n + 1, pos, p :: ps => p :: setPlayerPos n pos ps

/-- `checkWinCondition()`: some player stands on its goal row. -/
def anyWon (players : List Player) : Bool :=
  players.any Player.hasWon

/-- The state after a committed pawn move: position updated, win checked,
and the turn passed unless the game just ended. -/
def stepMove (g : Game) (target : Position) : Game :=
  let players2 := setPlayerPos g.currentPlayerIndex target g.players
  let gameOver2 := anyWon players2
  { players := players2, fences := g.fences,
    currentPlayerIndex :=
      if gameOver2 then g.currentPlayerIndex
      else (g.currentPlayerIndex + 1) % g.players.length,
    gameOver := gameOver2 }

/-- The state after a committed fence placement: fence appended, the acting
player's count decremented, win checked, turn passed unless the game ended. -/
def stepFence (g : Game) (fence : Fence) : Game :=
  let players2 := decFencesAt g.currentPlayerIndex g.players
  let gameOver2 := anyWon players2
  { players := players2, fences := g.fences ++ [fence],
    currentPlayerIndex :=
      if gameOver2 then g.currentPlayerIndex
      else (g.currentPlayerIndex + 1) % g.players.length,
    gameOver := gameOver2 }

/-- One validated command applied to a live game: a pawn move to a member of
`getValidMoves`, or a fence placement passing `isValidFencePlacement` with a
fence in hand; both only while the game is not over. -/
inductive GameStep : Game → Game → Prop where
  | movePawn (g : Game) (target : Position) (p : Player) :
      g.gameOver = false →
      g.players.get? g.currentPlayerIndex = some p →
      target ∈ getValidMoves g p →
      GameStep g (stepMove g target)
  | placeFence (g : Game) (fence : Fence) (p : Player) :
      g.gameOver = false →
      g.players.get? g.currentPlayerIndex = some p →
      0 < p.fencesRemaining →
      isValidFencePlacement g fence = true →
      GameStep g (stepFence g fence)

/-- A board state reachable from the initial state by validated commands. -/
def Reachable (g : Game) : Prop :=
  Relation.ReflTransGen GameStep initGame g

/-- The player's cell is fence-connected to an in-bounds cell of its goal
row. -/
def ConnGoal (fences : List Fence) (p : Player) : Prop :=
  ∃ q, isValidPosition q = true ∧ q.row = p.goalRow ∧ ReachFree fences p.position q

/-- The state invariant behind C7: two players on distinct in-bounds cells
with goal rows 0 and 8, each fence-connected to its goal row and each with an
open edge at its cell; while the game is live neither stands on its goal. -/
def INV (g : Game) : Prop :=
  ∃ a b : Player,
    g.players = [a, b] ∧
    isValidPosition a.position = true ∧
    isValidPosition b.position = true ∧
    a.position ≠ b.position ∧
    a.goalRow = 0 ∧
    b.goalRow = 8 ∧
    ConnGoal g.fences a ∧
    ConnGoal g.fences b ∧
    (∃ z, StepFree g.fences a.position z) ∧
    (∃ z, StepFree g.fences b.position z) ∧
    (g.gameOver = false → a.position.row ≠ 0 ∧ b.position.row ≠ 8)

/-! ### Lemmas about move generation -/

theorem mem_movesForDir_valid_unoccupied {g : Game} {player : Player} {d : Int × Int}
    {m : Position} (hm : m ∈ movesForDir g player d) :
    isValidPosition m = true ∧ isPositionOccupied g m = false := by
  simp only [movesForDir] at hm
  split_ifs at hm with h1 h2 h3 h4 h5
  · exact absurd hm (List.not_mem_nil m)
  · exact absurd hm (List.not_mem_nil m)
  · rw [List.mem_singleton] at hm
    subst hm
    exact ⟨h4.1, h4.2.2⟩
  · rw [List.mem_filterMap] at hm
    obtain ⟨dd, -, hsome⟩ := hm
    split_ifs at hsome with hc
    cases hsome
    exact ⟨hc.1, hc.2.2⟩
  · rw [List.mem_filterMap] at hm
    obtain ⟨dd, -, hsome⟩ := hm
    split_ifs at hsome with hc
    cases hsome
    exact ⟨hc.1, hc.2.2⟩
  · rw [List.mem_singleton] at hm
    subst hm
    simp only [Bool.not_eq_false] at h1
    simp only [Bool.not_eq_true] at h3
    exact ⟨h1, h3⟩

theorem mem_getValidMoves_valid_unoccupied {g : Game} {player : Player} {m : Position}
    (hm : m ∈ getValidMoves g player) :
    isValidPosition m = true ∧ isPositionOccupied g m = false := by
  unfold getValidMoves at hm
  rw [List.mem_flatMap] at hm
  obtain ⟨d, _, hmem⟩ := hm
  exact mem_movesForDir_valid_unoccupied hmem

/-- C10: every position returned by `getValidMoves` is in bounds and is
occupied by neither player. -/
theorem valid_moves_in_bounds_and_unoccupied (g : Game) (player : Player) (m : Position)
    (hm : m ∈ getValidMoves g player) :
    (0 ≤ m.row ∧ m.row < 9 ∧ 0 ≤ m.col ∧ m.col < 9) ∧
      ∀ q ∈ g.players, q.position ≠ m := by
  obtain ⟨hvalid, hunocc⟩ := mem_getValidMoves_valid_unoccupied hm
  constructor
  · exact of_decide_eq_true hvalid
  · intro q hq
    unfold isPositionOccupied at hunocc
    rw [List.any_eq_false] at hunocc
    simpa using hunocc q hq

/-- Witness for C10 at a concrete input: on the initial board, `(7,4)` is a
move of player 1, in bounds and on neither pawn. -/
theorem valid_moves_in_bounds_and_unoccupied_witness :
    (0 ≤ (⟨7, 4⟩ : Position).row ∧ (⟨7, 4⟩ : Position).row < 9 ∧
      0 ≤ (⟨7, 4⟩ : Position).col ∧ (⟨7, 4⟩ : Position).col < 9) ∧
      ∀ q ∈ (Game.mk [⟨⟨8, 4⟩, 0, 10⟩, ⟨⟨0, 4⟩, 8, 10⟩] [] 0 false).players,
        q.position ≠ (⟨7, 4⟩ : Position) :=
  valid_moves_in_bounds_and_unoccupied
    (Game.mk [⟨⟨8, 4⟩, 0, 10⟩, ⟨⟨0, 4⟩, 8, 10⟩] [] 0 false)
    ⟨⟨8, 4⟩, 0, 10⟩ ⟨7, 4⟩ (by decide)

/-- C1 counterexample: in the fenced jump scenario the claimed diagonal
destinations `(2,3)` and `(2,5)` are both absent from A's legal moves (the
negation of the claim's "must instead include (2,3) and/or (2,5)"). -/
theorem jump_scenario_claimed_cells_absent :
    ¬((⟨2, 3⟩ : Position) ∈ getValidMoves jumpGameFenced jumpPlayerA ∨
      (⟨2, 5⟩ : Position) ∈ getValidMoves jumpGameFenced jumpPlayerA) := by
  decide

/-- C1 amended: A's legal moves include the straight jump `(2,4)` before the
fence; after the horizontal fence at `(2,4)` they no longer include `(2,4)`
and instead include the diagonal jumps `(3,3)` and `(3,5)` beside the jumped
pawn. -/
theorem jump_scenario_diagonals :
    (⟨2, 4⟩ : Position) ∈ getValidMoves jumpGameNoFence jumpPlayerA ∧
      (⟨2, 4⟩ : Position) ∉ getValidMoves jumpGameFenced jumpPlayerA ∧
      (⟨3, 3⟩ : Position) ∈ getValidMoves jumpGameFenced jumpPlayerA ∧
      (⟨3, 5⟩ : Position) ∈ getValidMoves jumpGameFenced jumpPlayerA := by
  decide

/-! ### Perpendicular fences (C8) -/

/-- C8: fences of different orientations never trigger the intersection
check (its perpendicular branch is constantly `false`) and never count as
duplicates; they conflict at a fence post exactly when their `(row, col)`
coincide. -/
theorem perpendicular_fence_conflict (f1 f2 : Fence)
    (hne : f1.orientation ≠ f2.orientation) :
    fencesIntersect f1 f2 = false ∧
      (fencePostsCoincide f1 f2 = true ↔ f1.row = f2.row ∧ f1.col = f2.col) ∧
      fenceEquals f1 f2 = false := by
  refine ⟨?_, ?_, ?_⟩
  · unfold fencesIntersect
    rw [if_neg hne]
  · unfold fencePostsCoincide
    rw [decide_eq_true_iff]
    omega
  · unfold fenceEquals
    simp only [decide_eq_false_iff_not]
    rintro ⟨-, -, h⟩
    exact hne h

/-- Witness for C8 at a concrete input: a horizontal and a vertical fence at
the same `(4,4)` do not intersect but do share a post. -/
theorem perpendicular_fence_conflict_witness :
    fencesIntersect ⟨4, 4, .horizontal⟩ ⟨4, 4, .vertical⟩ = false ∧
      fencePostsCoincide ⟨4, 4, .horizontal⟩ ⟨4, 4, .vertical⟩ = true :=
  ⟨(perpendicular_fence_conflict ⟨4, 4, .horizontal⟩ ⟨4, 4, .vertical⟩ (by decide)).1,
    (perpendicular_fence_conflict ⟨4, 4, .horizontal⟩ ⟨4, 4, .vertical⟩ (by decide)).2.1.mpr
      ⟨rfl, rfl⟩⟩

theorem reachFree_valid {fences : List Fence} {x y : Position}
    (hx : isValidPosition x = true) (h : ReachFree fences x y) :
    isValidPosition y = true := by
  induction h with
  | refl => exact hx
  | tail _ hstep _ => exact hstep.2.1

theorem mem_allCells_of_valid {p : Position} (h : isValidPosition p = true) :
    p ∈ allCells := by
  obtain ⟨r, c⟩ := p
  have h' : 0 ≤ r ∧ r < 9 ∧ 0 ≤ c ∧ c < 9 := of_decide_eq_true h
  unfold allCells
  rw [List.mem_map]
  refine ⟨r.toNat * 9 + c.toNat, List.mem_range.mpr (by omega), ?_⟩
  simp only [Position.mk.injEq]
  constructor <;> omega

theorem unvisitedCount_le (visited : List Position) : unvisitedCount visited ≤ 81 := by
  have h := List.length_filter_le (fun q => decide (q ∉ visited)) allCells
  have h81 : allCells.length = 81 := by decide
  unfold unvisitedCount
  omega

theorem filter_notmem_append_singleton {l : List Position} (visited : List Position)
    {p : Position} (hp : p ∈ l) (hnp : p ∉ visited) (hnodup : l.Nodup) :
    (l.filter (fun q => decide (q ∉ visited ++ [p]))).length + 1 =
      (l.filter (fun q => decide (q ∉ visited))).length := by
  induction l with
  | nil => exact absurd hp (List.not_mem_nil p)
  | cons a l ih =>
    rcases List.mem_cons.mp hp with hpa | hpl
    · subst hpa
      have hal : p ∉ l := (List.nodup_cons.mp hnodup).1
      have h1 : (decide (p ∉ visited ++ [p])) = false := by
        simp
      have h2 : (decide (p ∉ visited)) = true := decide_eq_true hnp
      rw [List.filter_cons, List.filter_cons, h1, h2]
      have heq : l.filter (fun q => decide (q ∉ visited ++ [p])) =
          l.filter (fun q => decide (q ∉ visited)) := by
        apply List.filter_congr
        intro x hx
        have hxp : x ≠ p := fun hxe => hal (hxe ▸ hx)
        simp [List.mem_append, hxp]
      rw [heq]
      simp
    · have hap : a ≠ p := by
        rintro rfl
        exact (List.nodup_cons.mp hnodup).1 hpl
      have hcond : (decide (a ∉ visited ++ [p])) = (decide (a ∉ visited)) := by
        simp [List.mem_append, hap]
      rw [List.filter_cons, List.filter_cons, hcond]
      have ih' := ih hpl (List.nodup_cons.mp hnodup).2
      cases hd : decide (a ∉ visited) with
      | false => simpa [hd] using ih'
      | true => simpa [hd] using ih'

theorem unvisited_append_singleton {visited : List Position} {p : Position}
    (hvalid : isValidPosition p = true) (hnp : p ∉ visited) :
    unvisitedCount (visited ++ [p]) + 1 = unvisitedCount visited := by
  have : allCells.Nodup := by decide
  exact filter_notmem_append_singleton visited (mem_allCells_of_valid hvalid) hnp this

theorem unvisited_append_list {new : List Position} :
    ∀ {visited : List Position}, new.Nodup →
    (∀ a ∈ new, isValidPosition a = true ∧ a ∉ visited) →
    unvisitedCount (visited ++ new) + new.length = unvisitedCount visited := by
  induction new with
  | nil => intro visited _ _; simp
  | cons a new ih =>
    intro visited hnodup hprop
    have ha := hprop a (List.mem_cons_self a new)
    have h1 : unvisitedCount (visited ++ [a]) + 1 = unvisitedCount visited :=
      unvisited_append_singleton ha.1 ha.2
    have h2 : unvisitedCount ((visited ++ [a]) ++ new) + new.length =
        unvisitedCount (visited ++ [a]) := by
      apply ih (List.nodup_cons.mp hnodup).2
      intro b hb
      have hbp := hprop b (List.mem_cons_of_mem a hb)
      refine ⟨hbp.1, ?_⟩
      rw [List.mem_append]
      rintro (h | h)
      · exact hbp.2 h
      · rw [List.mem_singleton] at h
        exact (List.nodup_cons.mp hnodup).1 (h ▸ hb)
    have hassoc : (visited ++ [a]) ++ new = visited ++ a :: new := by simp
    rw [hassoc] at h2
    simp only [List.length_cons]
    omega

/-- What one call to `bfsExpand` produces: the freshly visited cells `new`
are appended to both the visited set and the pending queue additions; each is
an unblocked in-bounds neighbor of `c` that was unvisited, they are pairwise
distinct, and conversely every unblocked in-bounds neighbor of `c` ends up
visited. -/
theorem bfsExpand_spec (fences : List Fence) (c : Position) :
    ∀ (dirs : List (Int × Int)) (visited adds : List Position), ∃ new : List Position,
      (bfsExpand fences c dirs visited adds).1 = visited ++ new ∧
      (bfsExpand fences c dirs visited adds).2 = adds ++ new ∧
      (∀ a ∈ new, (∃ d ∈ dirs, a = ⟨c.row + d.1, c.col + d.2⟩) ∧
          isValidPosition a = true ∧
          isMovementBlockedByFences c a fences = false ∧ a ∉ visited) ∧
      new.Nodup ∧
      (∀ d ∈ dirs, ∀ n : Position, n = ⟨c.row + d.1, c.col + d.2⟩ →
          isValidPosition n = true → isMovementBlockedByFences c n fences = false →
          n ∈ visited ++ new) := by
  intro dirs
  induction dirs with
  | nil =>
    intro visited adds
    exact ⟨[], by simp [bfsExpand], by simp [bfsExpand], by simp, List.nodup_nil, by simp⟩
  | cons d ds ih =>
    intro visited adds
    by_cases hcond : isValidPosition (⟨c.row + d.1, c.col + d.2⟩ : Position) = true ∧
        (⟨c.row + d.1, c.col + d.2⟩ : Position) ∉ visited ∧
        isMovementBlockedByFences c ⟨c.row + d.1, c.col + d.2⟩ fences = false
    · obtain ⟨new', h1, h2, h3, h4, h5⟩ :=
        ih (visited ++ [⟨c.row + d.1, c.col + d.2⟩]) (adds ++ [⟨c.row + d.1, c.col + d.2⟩])
      refine ⟨⟨c.row + d.1, c.col + d.2⟩ :: new', ?_, ?_, ?_, ?_, ?_⟩
      · rw [bfsExpand, if_pos hcond, h1]; simp
      · rw [bfsExpand, if_pos hcond, h2]; simp
      · intro a ha
        rcases List.mem_cons.mp ha with rfl | ha'
        · exact ⟨⟨d, List.mem_cons_self d ds, rfl⟩, hcond.1, hcond.2.2, hcond.2.1⟩
        · obtain ⟨⟨d', hd', ha''⟩, hv, hb, hnv⟩ := h3 a ha'
          refine ⟨⟨d', List.mem_cons_of_mem d hd', ha''⟩, hv, hb, ?_⟩
          intro hmem
          exact hnv (List.mem_append_left _ hmem)
      · rw [List.nodup_cons]
        refine ⟨?_, h4⟩
        intro hmem
        have := (h3 _ hmem).2.2.2
        exact this (List.mem_append_right _ (List.mem_singleton_self _))
      · intro d' hd' n hn hnv hnb
        rcases List.mem_cons.mp hd' with rfl | hd''
        · subst hn
          exact List.mem_append_right _ (List.mem_cons_self _ _)
        · have := h5 d' hd'' n hn hnv hnb
          rw [List.append_assoc] at this
          simpa using this
    · obtain ⟨new', h1, h2, h3, h4, h5⟩ := ih visited adds
      refine ⟨new', ?_, ?_, ?_, h4, ?_⟩
      · rw [bfsExpand, if_neg hcond]; exact h1
      · rw [bfsExpand, if_neg hcond]; exact h2
      · intro a ha
        obtain ⟨⟨d', hd', ha''⟩, hv, hb, hnv⟩ := h3 a ha
        exact ⟨⟨d', List.mem_cons_of_mem d hd', ha''⟩, hv, hb, hnv⟩
      · intro d' hd' n hn hnv hnb
        rcases List.mem_cons.mp hd' with hde | hd''
        · subst hde
          subst hn
          by_cases hv : (⟨c.row + d'.1, c.col + d'.2⟩ : Position) ∈ visited
          · exact List.mem_append_left _ hv
          · exact absurd ⟨hnv, hv, hnb⟩ hcond
        · exact h5 d' hd'' n hn hnv hnb

/-- Soundness of the search loop: a `true` answer exhibits a reachable
goal-row cell, provided everything queued is reachable from `start`. -/
theorem bfsLoop_true (goalRow : Int) (fences : List Fence) (start : Position) :
    ∀ (fuel : Nat) (queue visited : List Position),
      (∀ p ∈ queue, ReachFree fences start p) →
      bfsLoop goalRow fences fuel queue visited = true →
      ∃ q, ReachFree fences start q ∧ q.row = goalRow := by
  intro fuel
  induction fuel with
  | zero =>
    intro queue visited _ htrue
    rw [bfsLoop] at htrue
    cases htrue
  | succ fuel ih =>
    intro queue visited hreach htrue
    cases queue with
    | nil =>
      rw [bfsLoop] at htrue
      cases htrue
    | cons c rest =>
      by_cases hgoal : c.row = goalRow
      · exact ⟨c, hreach c (List.mem_cons_self c rest), hgoal⟩
      · obtain ⟨new, h1, h2, h3, -, -⟩ := bfsExpand_spec fences c dirList visited []
        rw [bfsLoop, if_neg hgoal] at htrue
        simp only [h1, h2, List.nil_append] at htrue
        apply ih (rest ++ new) (visited ++ new) ?_ htrue
        intro p hp
        rcases List.mem_append.mp hp with h | h
        · exact hreach p (List.mem_cons_of_mem c h)
        · obtain ⟨⟨d, hd, hpd⟩, hv, hb, -⟩ := h3 p h
          exact (hreach c (List.mem_cons_self c rest)).tail ⟨⟨d, hd, hpd⟩, hv, hb⟩

/-- Completeness of the search loop: a `false` answer yields a step-closed
set of cells, none on the goal row, containing everything visited.  The fuel
bound `queue.length + unvisitedCount visited ≤ fuel` is maintained because
every iteration either dequeues without enqueuing or visits fresh cells. -/
theorem bfsLoop_false (goalRow : Int) (fences : List Fence) :
    ∀ (fuel : Nat) (queue visited : List Position),
      queue.length + unvisitedCount visited ≤ fuel →
      visited.Nodup → queue.Nodup →
      (∀ p ∈ queue, p ∈ visited) →
      (∀ v ∈ visited, v ∉ queue → v.row ≠ goalRow ∧
          ∀ y, StepFree fences v y → y ∈ visited) →
      bfsLoop goalRow fences fuel queue visited = false →
      ∃ V : List Position, (∀ v ∈ visited, v ∈ V) ∧
        ∀ v ∈ V, v.row ≠ goalRow ∧ ∀ y, StepFree fences v y → y ∈ V := by
  intro fuel
  induction fuel with
  | zero =>
    intro queue visited hfuel _ _ _ hinv _
    have hq : queue = [] := List.eq_nil_of_length_eq_zero (by omega)
    subst hq
    exact ⟨visited, fun v hv => hv, fun v hv => hinv v hv (List.not_mem_nil v)⟩
  | succ fuel ih =>
    intro queue visited hfuel hvn hqn hqv hinv hfalse
    cases queue with
    | nil =>
      exact ⟨visited, fun v hv => hv, fun v hv => hinv v hv (List.not_mem_nil v)⟩
    | cons c rest =>
      by_cases hgoal : c.row = goalRow
      · rw [bfsLoop, if_pos hgoal] at hfalse
        cases hfalse
      · obtain ⟨new, h1, h2, h3, h4, h5⟩ := bfsExpand_spec fences c dirList visited []
        rw [bfsLoop, if_neg hgoal] at hfalse
        simp only [h1, h2, List.nil_append] at hfalse
        have hnewnotvis : ∀ a ∈ new, a ∉ visited := fun a ha => (h3 a ha).2.2.2
        have hcount : unvisitedCount (visited ++ new) + new.length = unvisitedCount visited :=
          unvisited_append_list h4 (fun a ha => ⟨(h3 a ha).2.1, (h3 a ha).2.2.2⟩)
        have hrest_nodup : rest.Nodup := (List.nodup_cons.mp hqn).2
        have hlen : (rest ++ new).length + unvisitedCount (visited ++ new) ≤ fuel := by
          rw [List.length_append]
          rw [List.length_cons] at hfuel
          omega
        have hvn2 : (visited ++ new).Nodup := by
          rw [List.nodup_append]
          exact ⟨hvn, h4, fun a hav hanew => hnewnotvis a hanew hav⟩
        have hqn2 : (rest ++ new).Nodup := by
          rw [List.nodup_append]
          refine ⟨hrest_nodup, h4, ?_⟩
          intro a harest hanew
          exact hnewnotvis a hanew (hqv a (List.mem_cons_of_mem c harest))
        have hqv2 : ∀ p ∈ rest ++ new, p ∈ visited ++ new := by
          intro p hp
          rcases List.mem_append.mp hp with h | h
          · exact List.mem_append_left _ (hqv p (List.mem_cons_of_mem c h))
          · exact List.mem_append_right _ h
        have hinv2 : ∀ v ∈ visited ++ new, v ∉ rest ++ new → v.row ≠ goalRow ∧
            ∀ y, StepFree fences v y → y ∈ visited ++ new := by
          intro v hv hvq
          rcases List.mem_append.mp hv with hvvis | hvnew
          · by_cases hvc : v = c
            · subst hvc
              refine ⟨hgoal, ?_⟩
              rintro y ⟨⟨d, hd, hyd⟩, hyv, hyb⟩
              exact h5 d hd y hyd hyv hyb
            · have hvq' : v ∉ c :: rest := by
                intro hmem
                rcases List.mem_cons.mp hmem with h | h
                · exact hvc h
                · exact hvq (List.mem_append_left _ h)
              obtain ⟨hrow, hcl⟩ := hinv v hvvis hvq'
              exact ⟨hrow, fun y hy => List.mem_append_left _ (hcl y hy)⟩
          · exact absurd (List.mem_append_right rest hvnew) hvq
        obtain ⟨V, hV1, hV2⟩ :=
          ih (rest ++ new) (visited ++ new) hlen hvn2 hqn2 hqv2 hinv2 hfalse
        exact ⟨V, fun v hv => hV1 v (List.mem_append_left _ hv), hV2⟩

/-- Reachability cannot escape a step-closed set of cells. -/
theorem reach_mem_closed {fences : List Fence} {V : List Position}
    (hclosed : ∀ v ∈ V, ∀ y, StepFree fences v y → y ∈ V) :
    ∀ {x y : Position}, x ∈ V → ReachFree fences x y → y ∈ V := by
  intro x y hx h
  induction h with
  | refl => exact hx
  | tail _ hstep ih => exact hclosed _ ih _ hstep

/-- `hasPathToGoal` decides reachability of the goal row in the fence graph. -/
theorem hasPathToGoal_iff (player : Player) (fences : List Fence)
    (hpos : isValidPosition player.position = true) :
    hasPathToGoal player fences = true ↔
      ∃ q, isValidPosition q = true ∧ q.row = player.goalRow ∧
        ReachFree fences player.position q := by
  constructor
  · intro htrue
    unfold hasPathToGoal at htrue
    obtain ⟨q, hq, hrow⟩ := bfsLoop_true player.goalRow fences player.position 100
      [player.position] [player.position]
      (by
        intro p hp
        rw [List.mem_singleton] at hp
        subst hp
        exact Relation.ReflTransGen.refl) htrue
    exact ⟨q, reachFree_valid hpos hq, hrow, hq⟩
  · rintro ⟨q, hqv, hqrow, hqreach⟩
    by_contra hne
    have hfalse : bfsLoop player.goalRow fences 100 [player.position] [player.position]
        = false := by
      cases hval : hasPathToGoal player fences
      · unfold hasPathToGoal at hval
        exact hval
      · exact absurd hval hne
    have hlen : ([player.position] : List Position).length +
        unvisitedCount [player.position] ≤ 100 := by
      have := unvisitedCount_le [player.position]
      simp only [List.length_singleton]
      omega
    obtain ⟨V, hV1, hV2⟩ := bfsLoop_false player.goalRow fences 100 [player.position]
      [player.position] hlen (List.nodup_singleton _) (List.nodup_singleton _)
      (fun p hp => hp) (fun v hv hnv => absurd hv hnv) hfalse
    have hstart : player.position ∈ V := hV1 _ (List.mem_singleton.mpr rfl)
    have hqV : q ∈ V := reach_mem_closed (fun v hv => (hV2 v hv).2) hstart hqreach
    exact (hV2 q hqV).1 hqrow

/-- C2: `hasPathToGoal(player, fences)` returns `true` iff some in-bounds
cell on the player's goal row is reachable from the player's position in the
plain 4-neighbor grid graph with edges removed where a fence of `fences`
blocks the single step (`StepFree`); the search ignores pawn occupancy and
uses no jump-augmented edges, as `StepFree` itself records. -/
theorem hasPathToGoal_decides_reachability (player : Player) (fences : List Fence)
    (hpos : isValidPosition player.position = true) :
    hasPathToGoal player fences = true ↔
      ∃ q, isValidPosition q = true ∧ q.row = player.goalRow ∧
        ReachFree fences player.position q :=
  hasPathToGoal_iff player fences hpos

/-- Witness for C2 at a concrete input: player 1's start on the empty
board. -/
theorem hasPathToGoal_decides_reachability_witness :
    ∃ q, isValidPosition q = true ∧ q.row = (0 : Int) ∧
      ReachFree [] ⟨8, 4⟩ q :=
  (hasPathToGoal_decides_reachability ⟨⟨8, 4⟩, 0, 10⟩ [] (by decide)).mp (by decide)

/-- C3: a fence that fails validation is never committed (the state is left
unchanged), and the path-preservation check of a successful validation was
evaluated against the temporary fence set `fences ++ [fence]`, never by
committing the candidate first. -/
theorem fence_rejection_leaves_state_unchanged (g : Game) (fence : Fence) :
    (isValidFencePlacement g fence = false → applyFence g fence = none) ∧
      (isValidFencePlacement g fence = true →
        ∀ player ∈ g.players, hasPathToGoal player (g.fences ++ [fence]) = true) := by
  constructor
  · intro h
    unfold applyFence
    rw [h]
    simp
  · intro h player hp
    unfold isValidFencePlacement at h
    split_ifs at h
    rw [List.all_eq_true] at h
    exact h player hp

/-- Witness for C3 at concrete inputs: the out-of-bounds horizontal fence at
`(8,0)` is rejected without touching the initial board, and the accepted
fence at `(4,7)` was path-checked on the temporary set. -/
theorem fence_rejection_leaves_state_unchanged_witness :
    applyFence initGame ⟨8, 0, .horizontal⟩ = none ∧
      hasPathToGoal ⟨⟨8, 4⟩, 0, 10⟩ (initGame.fences ++ [⟨4, 7, .horizontal⟩]) = true :=
  ⟨(fence_rejection_leaves_state_unchanged initGame ⟨8, 0, .horizontal⟩).1 (by decide),
    (fence_rejection_leaves_state_unchanged initGame ⟨4, 7, .horizontal⟩).2 (by decide)
      ⟨⟨8, 4⟩, 0, 10⟩ (by decide)⟩

theorem popFence_pushFence (g : Game) (fence : Fence) :
    popFence (pushFence g fence) = g := by
  cases g
  simp [popFence, pushFence]

/-! ### Purity of the AI's mutate-then-undo evaluations (C9) -/

theorem advantageLoop_game (opponent aiPlayer : Player) (currentAdvantage : JNum) :
    ∀ (candidates : List Fence) (g : Game) (best : Option Fence) (bestInc : JNum),
      (advantageLoop opponent aiPlayer currentAdvantage g candidates best bestInc).2 = g := by
  intro candidates
  induction candidates with
  | nil => intro g best bestInc; rfl
  | cons fence rest ih =>
    intro g best bestInc
    rw [advantageLoop]
    split_ifs with h1
    · simp only []
      split_ifs with h2
      · rw [ih, popFence_pushFence]
      · rw [ih, popFence_pushFence]
    · exact ih g best bestInc

theorem highImpactLoop_game (opponent aiPlayer : Player) (currentAdvantage : JNum) :
    ∀ (candidates : List Fence) (g : Game) (best : Option Fence) (maxInc : JNum),
      (highImpactLoop opponent aiPlayer currentAdvantage g candidates best maxInc).2 = g := by
  intro candidates
  induction candidates with
  | nil => intro g best maxInc; rfl
  | cons fence rest ih =>
    intro g best maxInc
    rw [highImpactLoop]
    split_ifs with h1
    · rw [ih, popFence_pushFence]
    · rw [ih, popFence_pushFence]

theorem findStrategicFence_game (g : Game) (opponent : Player) :
    (findStrategicFence g opponent).2 = g := by
  unfold findStrategicFence
  split
  · rfl
  · exact advantageLoop_game _ _ _ _ _ _ _

theorem findSideFence_game (g : Game) (opponent : Player)
    (shuffle : List Fence → List Fence) :
    (findSideFence g opponent shuffle).2 = g := by
  unfold findSideFence
  split
  · rfl
  · exact advantageLoop_game _ _ _ _ _ _ _

theorem findHighImpactFence_game (g : Game) (opponent : Player)
    (shuffle : List Fence → List Fence) :
    (findHighImpactFence g opponent shuffle).2 = g := by
  unfold findHighImpactFence
  split
  · rfl
  · exact highImpactLoop_game _ _ _ _ _ _ _

theorem bot2MovementDecision_game (st : AiState) (g : Game) (player : Player)
    (validMoves : List Position) :
    (bot2MovementDecision st g player validMoves).2.2 = g := by
  unfold bot2MovementDecision
  split
  · rfl
  · split <;> rfl

theorem bot2DefensiveFence_game (g : Game) (opponent : Player)
    (shuffleSide : List Fence → List Fence) :
    (bot2DefensiveFence g opponent shuffleSide).2 = g := by
  unfold bot2DefensiveFence
  rcases hstrat : findStrategicFence g opponent with ⟨sf, g2⟩
  have hg2 : g2 = g := by
    have := congrArg Prod.snd hstrat
    rw [findStrategicFence_game] at this
    exact this.symm
  cases sf with
  | some f => exact hg2
  | none => rw [findSideFence_game, hg2]

theorem makeSimpleMove_game (st : AiState) (g : Game) (player : Player) (rng : AiRng) :
    (makeSimpleMove st g player rng).2.2 = g := by
  unfold makeSimpleMove
  cases hfind : g.players.find? (fun p => !(decide (p = player))) with
  | none => rfl
  | some opponent =>
    simp only []
    rcases hop : (if st.moveCount ≤ 1 ∧ rng.rGate < 3 / 4 then
        findBot2OpeningMove st g player rng.rPat else (none, st)) with ⟨om, st1⟩
    cases om with
    | some pos => rfl
    | none =>
      simp only []
      cases hw : (if (getValidMoves g player).isEmpty = true then none
          else findWinningMove player (getValidMoves g player)) with
      | some w => rfl
      | none =>
        simp only []
        by_cases hempty : (getValidMoves g player).isEmpty = true
        · rw [if_pos hempty]
        · rw [if_neg hempty]
          rcases hhi : (if 0 < player.fencesRemaining then
              findHighImpactFence g opponent rng.shuffleHigh else (none, g)) with ⟨hf, g1⟩
          have hg1 : g1 = g := by
            have h2 := congrArg Prod.snd hhi
            split_ifs at h2
            · rw [findHighImpactFence_game] at h2
              exact h2.symm
            · exact h2.symm
          cases hf with
          | some f => exact hg1
          | none =>
            simp only []
            by_cases hsp : (0 < player.fencesRemaining ∧
                JNum.leb (dijkstraDistance g opponent.position opponent.goalRow)
                  (.num 3) = true ∧
                |opponent.position.row - opponent.goalRow| ≤ 4)
            · rw [if_pos hsp]
              rcases hdef : bot2DefensiveFence g1 opponent rng.shuffleSide with ⟨df, g2⟩
              have hg2 : g2 = g1 := by
                have h2 := congrArg Prod.snd hdef
                rw [bot2DefensiveFence_game] at h2
                exact h2.symm
              cases df with
              | some f => exact hg2.trans hg1
              | none =>
                rw [bot2MovementDecision_game]
                exact hg2.trans hg1
            · rw [if_neg hsp]
              rw [bot2MovementDecision_game]
              exact hg1

/-- C9: the AI decision function hands the board back exactly as it received
it: every hypothetical fence pushed during evaluation is popped again before
returning, and player positions and fence counts are untouched. -/
theorem ai_decision_preserves_board (st : AiState) (g : Game) (player : Player)
    (rng : AiRng) :
    (makeMove st g player rng).2.2 = g := by
  unfold makeMove
  exact makeSimpleMove_game _ g player rng

/-! ### Characterisation of the defensive fence selection (C5) -/

theorem JNum.ltb_irrefl (a : JNum) : JNum.ltb a a = false := by
  cases a <;> simp [JNum.ltb]

theorem JNum.ltb_asymm {a b : JNum} (h : JNum.ltb a b = true) :
    JNum.ltb b a = false := by
  cases a <;> cases b <;> simp_all [JNum.ltb] <;> linarith

theorem JNum.ltb_trans {a b c : JNum} (h1 : JNum.ltb a b = true)
    (h2 : JNum.ltb b c = true) : JNum.ltb a c = true := by
  cases a <;> cases b <;> cases c <;> simp_all [JNum.ltb] <;> linarith

theorem JNum.ltb_false_trans {a b x : JNum} (h1 : JNum.ltb a b = true)
    (h2 : JNum.ltb a x = false) : JNum.ltb b x = false := by
  cases a <;> cases b <;> cases x <;> simp_all [JNum.ltb] <;> linarith

theorem selectBestFold_spec (legal : Fence → Bool) (inc : Fence → JNum) :
    ∀ (l : List Fence) (best : Option Fence) (bestInc : JNum),
      (JNum.ltb bestInc (l.foldl (selectBestStep legal inc) (best, bestInc)).2 = true ∨
        l.foldl (selectBestStep legal inc) (best, bestInc) = (best, bestInc)) ∧
      (∀ f' ∈ l, legal f' = true →
        JNum.gtb (inc f') (l.foldl (selectBestStep legal inc) (best, bestInc)).2 = false) ∧
      ((l.foldl (selectBestStep legal inc) (best, bestInc)).1 = best ∧
          (l.foldl (selectBestStep legal inc) (best, bestInc)).2 = bestInc ∨
        ∃ f ∈ l, legal f = true ∧
          (l.foldl (selectBestStep legal inc) (best, bestInc)).1 = some f ∧
          (l.foldl (selectBestStep legal inc) (best, bestInc)).2 = inc f ∧
          JNum.gtb (inc f) bestInc = true) := by
  intro l
  induction l with
  | nil =>
    intro best bestInc
    exact ⟨Or.inr rfl, fun f' hf' => absurd hf' (List.not_mem_nil f'),
      Or.inl ⟨rfl, rfl⟩⟩
  | cons f fs ih =>
    intro best bestInc
    rw [List.foldl_cons]
    by_cases hq : legal f = true ∧ JNum.gtb (inc f) bestInc = true
    · rw [show selectBestStep legal inc (best, bestInc) f = (some f, inc f) by
        unfold selectBestStep; rw [if_pos hq]]
      obtain ⟨ih1, ih2, ih3⟩ := ih (some f) (inc f)
      refine ⟨?_, ?_, ?_⟩
      · rcases ih1 with h | h
        · exact Or.inl (JNum.ltb_trans hq.2 h)
        · rw [h]
          exact Or.inl hq.2
      · intro f' hf' hlegal
        rcases List.mem_cons.mp hf' with rfl | hmem
        · rcases ih1 with h | h
          · exact JNum.ltb_asymm h
          · rw [h]
            exact JNum.ltb_irrefl (inc f')
        · exact ih2 f' hmem hlegal
      · rcases ih3 with ⟨h1, h2⟩ | ⟨f2, hmem, hlegal, hfst, hsnd, hgt⟩
        · exact Or.inr ⟨f, List.mem_cons_self f fs, hq.1, h1, h2, hq.2⟩
        · exact Or.inr ⟨f2, List.mem_cons_of_mem f hmem, hlegal, hfst, hsnd,
            JNum.ltb_trans hq.2 hgt⟩
    · rw [show selectBestStep legal inc (best, bestInc) f = (best, bestInc) by
        unfold selectBestStep; rw [if_neg hq]]
      obtain ⟨ih1, ih2, ih3⟩ := ih best bestInc
      refine ⟨ih1, ?_, ?_⟩
      · intro f' hf' hlegal
        rcases List.mem_cons.mp hf' with rfl | hmem
        · have hgf : JNum.ltb bestInc (inc f') = false := by
            by_cases hg : JNum.gtb (inc f') bestInc = true
            · exact absurd ⟨hlegal, hg⟩ hq
            · unfold JNum.gtb at hg
              exact Bool.eq_false_iff.mpr hg
          rcases ih1 with h | h
          · exact JNum.ltb_false_trans h hgf
          · rw [h]
            exact hgf
        · exact ih2 f' hmem hlegal
      · rcases ih3 with h | ⟨f2, hmem, hlegal, hfst, hsnd, hgt⟩
        · exact Or.inl h
        · exact Or.inr ⟨f2, List.mem_cons_of_mem f hmem, hlegal, hfst, hsnd, hgt⟩

/-- The mutate-test-undo candidate loop computes exactly the pure
best-advantage fold and returns the game unchanged. -/
theorem advantageLoop_eq (opponent aiPlayer : Player) (currentAdvantage : JNum) :
    ∀ (candidates : List Fence) (g : Game) (best : Option Fence) (bestInc : JNum),
      advantageLoop opponent aiPlayer currentAdvantage g candidates best bestInc =
        ((candidates.foldl (selectBestStep (fun f => isValidFencePlacement g f)
          (advantageIncreaseOf opponent aiPlayer currentAdvantage g))
          (best, bestInc)).1, g) := by
  intro candidates
  induction candidates with
  | nil => intro g best bestInc; rfl
  | cons fence rest ih =>
    intro g best bestInc
    rw [advantageLoop, List.foldl_cons]
    split_ifs with h1
    · simp only []
      split_ifs with h2
      · rw [popFence_pushFence, ih]
        rw [show selectBestStep (fun f => isValidFencePlacement g f)
            (advantageIncreaseOf opponent aiPlayer currentAdvantage g)
            (best, bestInc) fence =
            (some fence, advantageIncreaseOf opponent aiPlayer currentAdvantage g fence) by
          unfold selectBestStep advantageIncreaseOf
          rw [if_pos ⟨h1, h2⟩]]
        rfl
      · rw [popFence_pushFence, ih]
        rw [show selectBestStep (fun f => isValidFencePlacement g f)
            (advantageIncreaseOf opponent aiPlayer currentAdvantage g)
            (best, bestInc) fence = (best, bestInc) by
          unfold selectBestStep advantageIncreaseOf
          rw [if_neg (fun hc => h2 hc.2)]]
    · rw [ih]
      rw [show selectBestStep (fun f => isValidFencePlacement g f)
          (advantageIncreaseOf opponent aiPlayer currentAdvantage g)
          (best, bestInc) fence = (best, bestInc) by
        unfold selectBestStep
        rw [if_neg (fun hc => h1 hc.1)]]

unseal Rat.mul Rat.inv Rat.add Rat.sub in
/-- C5 counterexample: on `defendGame` the branch triggers and the first
direct candidate `(2,3)` is legal and strictly increases the opponent's
weighted distance, yet `findStrategicFence` returns the second candidate
`(2,4)`, whose advantage increase is larger. -/
theorem strategic_fence_not_first_qualifying : ¬claimC5 := by
  intro h
  have heq := h defendGame defendOpponent defendAi (by decide) (by decide)
    (by decide) (by decide)
  have h1 : (findStrategicFence defendGame defendOpponent).1 =
      some ⟨2, 4, .horizontal⟩ := by decide
  have h2 : firstOppIncreasingDirectFence defendGame defendOpponent =
      some ⟨2, 3, .horizontal⟩ := by decide
  rw [h1, h2] at heq
  exact absurd heq (by decide)

/-- C5 (amended): when the defensive branch runs, `findStrategicFence`
selects among the two direct-blocking candidates the legal one with the
largest strictly positive increase in the AI's advantage (opponent's
weighted distance minus the AI's own), earliest on ties — not the first one
that merely increases the opponent's distance; `findSideFence` applies the
same rule to the shuffled side candidates; the side candidates are consulted
only when no direct candidate qualified; and both finders return the board
unchanged. -/
theorem defensive_fence_best_advantage (g : Game) (opponent aiPlayer : Player)
    (shuffle : List Fence → List Fence)
    (hai : g.players.find? (fun p => !(decide (p = opponent))) = some aiPlayer) :
    (findStrategicFence g opponent).1 =
        bestAdvantageFence g opponent aiPlayer (getDirectBlockingFences opponent) ∧
      (findSideFence g opponent shuffle).1 =
        bestAdvantageFence g opponent aiPlayer (shuffle (getSideBlockingFences opponent)) ∧
      (findStrategicFence g opponent).2 = g ∧
      (findSideFence g opponent shuffle).2 = g ∧
      ((findStrategicFence g opponent).1 = none →
        bot2DefensiveFence g opponent shuffle = findSideFence g opponent shuffle) ∧
      (∀ (candidates : List Fence) (f : Fence),
        bestAdvantageFence g opponent aiPlayer candidates = some f →
          f ∈ candidates ∧ isValidFencePlacement g f = true ∧
          JNum.gtb (fenceAdvantageIncrease g opponent aiPlayer f) (JNum.num 0) = true ∧
          ∀ f' ∈ candidates, isValidFencePlacement g f' = true →
            JNum.gtb (fenceAdvantageIncrease g opponent aiPlayer f')
              (fenceAdvantageIncrease g opponent aiPlayer f) = false) ∧
      (∀ candidates : List Fence,
        bestAdvantageFence g opponent aiPlayer candidates = none →
          ∀ f' ∈ candidates, isValidFencePlacement g f' = true →
            JNum.gtb (fenceAdvantageIncrease g opponent aiPlayer f') (JNum.num 0) = false) := by
  refine ⟨?_, ?_, findStrategicFence_game g opponent, findSideFence_game g opponent shuffle,
    ?_, ?_, ?_⟩
  · unfold findStrategicFence
    rw [hai]
    simp only []
    rw [advantageLoop_eq]
    rfl
  · unfold findSideFence
    rw [hai]
    simp only []
    rw [advantageLoop_eq]
    rfl
  · intro hnone
    unfold bot2DefensiveFence
    rcases hstrat : findStrategicFence g opponent with ⟨sf, g2⟩
    have hsf : sf = none := by
      have := congrArg Prod.fst hstrat
      rw [hnone] at this
      exact this.symm
    have hg2 : g2 = g := by
      have := congrArg Prod.snd hstrat
      rw [findStrategicFence_game] at this
      exact this.symm
    subst hsf
    rw [hg2]
  · intro candidates f hf
    unfold bestAdvantageFence at hf
    obtain ⟨-, h2, h3⟩ := selectBestFold_spec (fun f => isValidFencePlacement g f)
      (fenceAdvantageIncrease g opponent aiPlayer) candidates none (JNum.num 0)
    rcases h3 with ⟨hfst, -⟩ | ⟨f2, hmem, hlegal, hfst, hsnd, hgt⟩
    · rw [hf] at hfst
      cases hfst
    · rw [hf] at hfst
      cases hfst
      refine ⟨hmem, hlegal, hgt, ?_⟩
      intro f' hf' hlegal'
      have := h2 f' hf' hlegal'
      rw [hsnd] at this
      exact this
  · intro candidates hnone
    unfold bestAdvantageFence at hnone
    obtain ⟨-, h2, h3⟩ := selectBestFold_spec (fun f => isValidFencePlacement g f)
      (fenceAdvantageIncrease g opponent aiPlayer) candidates none (JNum.num 0)
    rcases h3 with ⟨-, hsnd⟩ | ⟨f2, -, -, hfst, -, -⟩
    · intro f' hf' hlegal'
      have := h2 f' hf' hlegal'
      rw [hsnd] at this
      exact this
    · rw [hnone] at hfst
      cases hfst

/-- Witness for C5's amended theorem at a concrete input: the
counterexample board, with the identity shuffle. -/
theorem defensive_fence_best_advantage_witness :
    (findStrategicFence defendGame defendOpponent).1 =
      bestAdvantageFence defendGame defendOpponent defendAi
        (getDirectBlockingFences defendOpponent) :=
  (defensive_fence_best_advantage defendGame defendOpponent defendAi id (by decide)).1

/-! ### The opening book (C4) -/

theorem bot2MovementDecision_state (st : AiState) (g : Game) (player : Player)
    (validMoves : List Position) :
    (bot2MovementDecision st g player validMoves).2.1 = st := by
  unfold bot2MovementDecision
  split
  · rfl
  · split <;> rfl

/-- When the opening gate fails, `makeSimpleMove` leaves the AI state
untouched: the opening book is not consulted. -/
theorem makeSimpleMove_state_of_gate_false (st : AiState) (g : Game) (player : Player)
    (rng : AiRng) (hgate : ¬(st.moveCount ≤ 1 ∧ rng.rGate < 3 / 4)) :
    (makeSimpleMove st g player rng).2.1 = st := by
  unfold makeSimpleMove
  cases hfind : g.players.find? (fun p => !(decide (p = player))) with
  | none => rfl
  | some opponent =>
    simp only []
    rw [if_neg hgate]
    cases hw : (if (getValidMoves g player).isEmpty = true then none
        else findWinningMove player (getValidMoves g player)) with
    | some w => rfl
    | none =>
      simp only []
      by_cases hempty : (getValidMoves g player).isEmpty = true
      · rw [if_pos hempty]
      · rw [if_neg hempty]
        rcases hhi : (if 0 < player.fencesRemaining then
            findHighImpactFence g opponent rng.shuffleHigh else (none, g)) with ⟨hf, g1⟩
        cases hf with
        | some f => rfl
        | none =>
          simp only []
          by_cases hsp : (0 < player.fencesRemaining ∧
              JNum.leb (dijkstraDistance g opponent.position opponent.goalRow)
                (.num 3) = true ∧
              |opponent.position.row - opponent.goalRow| ≤ 4)
          · rw [if_pos hsp]
            rcases hdef : bot2DefensiveFence g1 opponent rng.shuffleSide with ⟨df, g2⟩
            cases df with
            | some f => rfl
            | none => rw [bot2MovementDecision_state]
          · rw [if_neg hsp]
            rw [bot2MovementDecision_state]

/-- C4 counterexample: on the AI's second decision (pre-call `moveCount` 1)
with draw 0, the gate evaluated after `makeMove`'s increment fails, so the
opening book is not consulted. -/
theorem opening_book_not_consulted_second_decision : ¬claimC4 := by
  intro h
  have h1 := (h ⟨1, none, none, 0⟩ ⟨⟨0, 4⟩, 8, 10⟩ 0 (by decide) le_rfl (by norm_num)).1
  simp only [makeMoveState] at h1
  omega

unseal Rat.mul Rat.inv Rat.add Rat.sub in
/-- C4 (amended): the opening book is consulted only on the AI's first
decision — `makeMove` increments `moveCount` before `makeSimpleMove` checks
`moveCount ≤ 1`, so the post-increment gate holds iff the pre-call count was
0 and the draw is below 0.75; when the gate fails the AI state (and with it
the opening progress) is untouched; the once-chosen pattern is kept across
calls unless the opening is abandoned; the eight patterns carry weights
`[2,2,2,2,2,2,1,1]` of total 14, and the scaled draw `s = r·14` selects
pattern `i` exactly on an interval of length equal to its weight. -/
theorem opening_book_gate_and_weights :
    (∀ (st : AiState) (player : Player) (r : ℚ),
      ((makeMoveState st player).moveCount ≤ 1 ∧ r < 3 / 4) ↔
        (st.moveCount = 0 ∧ r < 3 / 4)) ∧
    (∀ (st : AiState) (g : Game) (player : Player) (rng : AiRng),
      ¬(st.moveCount ≤ 1 ∧ rng.rGate < 3 / 4) →
      (makeSimpleMove st g player rng).2.1 = st) ∧
    bot2TotalWeight = 14 ∧
    bot2Patterns.map (fun p => p.2) = [2, 2, 2, 2, 2, 2, 1, 1] ∧
    (∀ (st : AiState) (g : Game) (player : Player) (r : ℚ) (pattern : List MoveDir),
      st.bot2OpeningPattern = some pattern →
      (findBot2OpeningMove st g player r).2.bot2OpeningPattern = some pattern ∨
        (findBot2OpeningMove st g player r).2.bot2OpeningPattern = none) ∧
    (∀ s : ℚ,
      (0 ≤ s → s ≤ 2 → selectLoop s bot2Patterns = some [.left, .left]) ∧
      (2 < s → s ≤ 4 → selectLoop s bot2Patterns = some [.down, .left]) ∧
      (4 < s → s ≤ 6 → selectLoop s bot2Patterns = some [.down, .right]) ∧
      (6 < s → s ≤ 8 → selectLoop s bot2Patterns = some [.right, .right]) ∧
      (8 < s → s ≤ 10 → selectLoop s bot2Patterns = some [.left, .down, .left]) ∧
      (10 < s → s ≤ 12 → selectLoop s bot2Patterns = some [.right, .down, .right]) ∧
      (12 < s → s ≤ 13 → selectLoop s bot2Patterns = some [.left, .left, .left]) ∧
      (13 < s → s ≤ 14 → selectLoop s bot2Patterns = some [.right, .right, .right])) := by
  refine ⟨?_, makeSimpleMove_state_of_gate_false, ?_, ?_, ?_, ?_⟩
  · intro st player r
    simp only [makeMoveState]
    constructor
    · rintro ⟨h1, h2⟩
      exact ⟨by omega, h2⟩
    · rintro ⟨h1, h2⟩
      exact ⟨by omega, h2⟩
  · decide
  · decide
  · intro st g player r pattern hp
    unfold findBot2OpeningMove
    rw [hp]
    simp only []
    split_ifs with hlen
    · exact Or.inl hp
    · cases hget : pattern.get? st.bot2OpeningStep with
      | none => exact Or.inl hp
      | some direction =>
        simp only []
        cases hfindm : (getValidMoves g player).find? (fun move =>
            decide (move = ⟨player.position.row + (dirOfMoveDir direction).1,
              player.position.col + (dirOfMoveDir direction).2⟩)) with
        | some m => exact Or.inl hp
        | none => exact Or.inr rfl
  · intro s
    refine ⟨?_, ?_, ?_, ?_, ?_, ?_, ?_, ?_⟩ <;>
      (intro h1 h2
       simp only [bot2Patterns, selectLoop]
       split_ifs <;> first | rfl | (exfalso; linarith))

/-- Witness for C4's amended theorem at concrete inputs: the gate passes on
the first decision with draw 0, a scaled draw of 3 selects the second
pattern, and on a failed gate the state with `moveCount` 2 is returned
untouched. -/
theorem opening_book_gate_and_weights_witness :
    ((makeMoveState ⟨0, none, none, 0⟩ ⟨⟨0, 4⟩, 8, 10⟩).moveCount ≤ 1 ∧ (0 : ℚ) < 3 / 4) ∧
      selectLoop 3 bot2Patterns = some [.down, .left] ∧
      (makeSimpleMove ⟨2, none, none, 0⟩ initGame ⟨⟨0, 4⟩, 8, 10⟩
        ⟨1, 0, id, id⟩).2.1 = ⟨2, none, none, 0⟩ :=
  ⟨(opening_book_gate_and_weights.1 ⟨0, none, none, 0⟩ ⟨⟨0, 4⟩, 8, 10⟩ 0).mpr
      ⟨rfl, by norm_num⟩,
    ((opening_book_gate_and_weights.2.2.2.2.2 3).2.1 (by norm_num) (by norm_num)),
    opening_book_gate_and_weights.2.1 ⟨2, none, none, 0⟩ initGame ⟨⟨0, 4⟩, 8, 10⟩
      ⟨1, 0, id, id⟩ (by rintro ⟨h, -⟩; exact absurd h (by decide))⟩

unseal Rat.mul Rat.inv Rat.add Rat.sub in
/-- C6: on the fence-free board with the opponent at Chebyshev distance at
least 2 from every cell of the unique 8-step shortest path down column 4,
the weighted distance from `(8,4)` to goal row 0 is exactly 8. -/
theorem weighted_distance_empty_board :
    dijkstraDistance weightedDistanceGame ⟨8, 4⟩ 0 = JNum.num 8 ∧
      weightedDistanceGame.fences = [] ∧
      (weightedDistanceGame.players.all (fun player =>
        decide (player.goalRow = 0) ||
          (List.range 9).all (fun k =>
            decide (1 < max |(k : Int) - player.position.row|
              |4 - player.position.col|)))) = true :=
  ⟨by decide, rfl, by decide⟩

theorem blocksMovement_symm (fence : Fence) (x y : Position) :
    fence.blocksMovement x y = fence.blocksMovement y x := by
  obtain ⟨fr, fc, o⟩ := fence
  obtain ⟨xr, xc⟩ := x
  obtain ⟨yr, yc⟩ := y
  cases o <;> simp only [Fence.blocksMovement]
  · by_cases h : xc = yc
    · rw [if_pos h, if_pos h.symm]
      simp only [decide_eq_decide]
      subst h
      omega
    · rw [if_neg h, if_neg (fun hc => h hc.symm)]
  · by_cases h : xr = yr
    · rw [if_pos h, if_pos h.symm]
      simp only [decide_eq_decide]
      subst h
      omega
    · rw [if_neg h, if_neg (fun hc => h hc.symm)]

theorem isMovementBlockedByFences_symm (x y : Position) (fences : List Fence) :
    isMovementBlockedByFences x y fences = isMovementBlockedByFences y x fences := by
  unfold isMovementBlockedByFences
  congr 1
  funext fence
  exact blocksMovement_symm fence x y

/-- A step of the fence graph can be walked back when its source is in
bounds. -/
theorem stepFree_symm {fences : List Fence} {x y : Position}
    (hx : isValidPosition x = true) (h : StepFree fences x y) :
    StepFree fences y x := by
  obtain ⟨⟨d, hd, hy⟩, hvy, hb⟩ := h
  subst hy
  rw [isMovementBlockedByFences_symm] at hb
  simp only [dirList, List.mem_cons, List.not_mem_nil, or_false] at hd
  rcases hd with rfl | rfl | rfl | rfl
  · refine ⟨⟨(1, 0), by decide, ?_⟩, hx, hb⟩
    cases x
    simp only [Position.mk.injEq]
    constructor <;> ring
  · refine ⟨⟨(-1, 0), by decide, ?_⟩, hx, hb⟩
    cases x
    simp only [Position.mk.injEq]
    constructor <;> ring
  · refine ⟨⟨(0, 1), by decide, ?_⟩, hx, hb⟩
    cases x
    simp only [Position.mk.injEq]
    constructor <;> ring
  · refine ⟨⟨(0, -1), by decide, ?_⟩, hx, hb⟩
    cases x
    simp only [Position.mk.injEq]
    constructor <;> ring

theorem movesForDir_plain {g : Game} {player : Player} {d : Int × Int} {n : Position}
    (hn : n = ⟨player.position.row + d.1, player.position.col + d.2⟩)
    (hv : isValidPosition n = true)
    (hb : isMovementBlocked g player.position n = false)
    (ho : isPositionOccupied g n = false) :
    movesForDir g player d = [n] := by
  subst hn
  simp only [movesForDir]
  rw [if_neg (by simp [hv]), if_neg (by simp [hb]), if_neg (by simp [ho])]

theorem movesForDir_jump {g : Game} {player : Player} {d : Int × Int} {n j : Position}
    (hn : n = ⟨player.position.row + d.1, player.position.col + d.2⟩)
    (hj : j = ⟨n.row + d.1, n.col + d.2⟩)
    (hv : isValidPosition n = true)
    (hb : isMovementBlocked g player.position n = false)
    (ho : isPositionOccupied g n = true)
    (hjv : isValidPosition j = true)
    (hjb : isMovementBlocked g n j = false)
    (hjo : isPositionOccupied g j = false) :
    movesForDir g player d = [j] := by
  subst hn
  subst hj
  simp only [movesForDir]
  rw [if_neg (by simp [hv]), if_neg (by simp [hb]), if_pos ho, if_pos ⟨hjv, hjb, hjo⟩]

theorem movesForDir_diag_mem {g : Game} {player : Player} {d dd : Int × Int} {n z : Position}
    (hn : n = ⟨player.position.row + d.1, player.position.col + d.2⟩)
    (hv : isValidPosition n = true)
    (hb : isMovementBlocked g player.position n = false)
    (ho : isPositionOccupied g n = true)
    (hjfail : ¬(isValidPosition (⟨n.row + d.1, n.col + d.2⟩ : Position) = true ∧
        isMovementBlocked g n ⟨n.row + d.1, n.col + d.2⟩ = false ∧
        isPositionOccupied g ⟨n.row + d.1, n.col + d.2⟩ = false))
    (hdd : dd ∈ (if d.1 ≠ 0 then [((0 : Int), (-1 : Int)), ((0 : Int), (1 : Int))]
        else [((-1 : Int), (0 : Int)), ((1 : Int), (0 : Int))]))
    (hz : z = ⟨n.row + dd.1, n.col + dd.2⟩)
    (hzv : isValidPosition z = true)
    (hzb : isMovementBlocked g n z = false)
    (hzo : isPositionOccupied g z = false) :
    z ∈ movesForDir g player d := by
  subst hn
  subst hz
  simp only [movesForDir]
  rw [if_neg (by simp [hv]), if_neg (by simp [hb]), if_pos ho, if_neg hjfail]
  exact List.mem_filterMap.mpr ⟨dd, hdd, by rw [if_pos ⟨hzv, hzb, hzo⟩]⟩

theorem movesForDir_eq_nil {g : Game} {p : Player} (h : getValidMoves g p = []) :
    ∀ d ∈ dirList, movesForDir g p d = [] := by
  intro d hd
  rcases hmm : movesForDir g p d with _ | ⟨m, rest⟩
  · rfl
  · exfalso
    have hmem : m ∈ getValidMoves g p := by
      unfold getValidMoves
      rw [List.mem_flatMap]
      exact ⟨d, hd, by rw [hmm]; exact List.mem_cons_self m rest⟩
    rw [h] at hmem
    exact List.not_mem_nil m hmem

/-- With exactly two players on the board, a cell is occupied iff it is one of
their positions. -/
theorem isPositionOccupied_pair {g : Game} {a b : Player} (hpl : g.players = [a, b])
    (q : Position) :
    isPositionOccupied g q = true ↔ q = a.position ∨ q = b.position := by
  simp only [isPositionOccupied, hpl, List.any_cons, List.any_nil, Bool.or_false,
    Bool.or_eq_true, decide_eq_true_eq]
  constructor
  · rintro (h | h) <;> simp [h.symm]
  · rintro (rfl | rfl) <;> simp

/-- Every cell reached by a legal pawn move is fence-connected to the cell the
pawn left, in both directions. -/
theorem mem_getValidMoves_reach {g : Game} {p : Player} {m : Position}
    (hp : isValidPosition p.position = true) (hm : m ∈ getValidMoves g p) :
    ReachFree g.fences p.position m ∧ ReachFree g.fences m p.position := by
  unfold getValidMoves at hm
  rw [List.mem_flatMap] at hm
  obtain ⟨d, hd, hmem⟩ := hm
  simp only [movesForDir] at hmem
  split_ifs at hmem with h1 h2 h3 h4 h5
  · exact absurd hmem (List.not_mem_nil m)
  · exact absurd hmem (List.not_mem_nil m)
  · rw [List.mem_singleton] at hmem
    subst hmem
    simp only [Bool.not_eq_false] at h1
    simp only [Bool.not_eq_true] at h2
    have s1 : StepFree g.fences p.position
        ⟨p.position.row + d.1, p.position.col + d.2⟩ := ⟨⟨d, hd, rfl⟩, h1, h2⟩
    have s2 : StepFree g.fences
        (⟨p.position.row + d.1, p.position.col + d.2⟩ : Position)
        ⟨(⟨p.position.row + d.1, p.position.col + d.2⟩ : Position).row + d.1,
          (⟨p.position.row + d.1, p.position.col + d.2⟩ : Position).col + d.2⟩ :=
      ⟨⟨d, hd, rfl⟩, h4.1, h4.2.1⟩
    constructor
    · exact Relation.ReflTransGen.tail
        (Relation.ReflTransGen.tail Relation.ReflTransGen.refl s1) s2
    · exact Relation.ReflTransGen.tail
        (Relation.ReflTransGen.tail Relation.ReflTransGen.refl (stepFree_symm h1 s2))
        (stepFree_symm hp s1)
  · rw [List.mem_filterMap] at hmem
    obtain ⟨dd, hddmem, hsome⟩ := hmem
    split_ifs at hsome with hc
    cases hsome
    simp only [Bool.not_eq_false] at h1
    simp only [Bool.not_eq_true] at h2
    have hdd' : dd ∈ dirList := by
      simp only [List.mem_cons, List.not_mem_nil, or_false] at hddmem
      rcases hddmem with rfl | rfl <;> decide
    have s1 : StepFree g.fences p.position
        ⟨p.position.row + d.1, p.position.col + d.2⟩ := ⟨⟨d, hd, rfl⟩, h1, h2⟩
    have s2 : StepFree g.fences
        (⟨p.position.row + d.1, p.position.col + d.2⟩ : Position)
        ⟨(⟨p.position.row + d.1, p.position.col + d.2⟩ : Position).row + dd.1,
          (⟨p.position.row + d.1, p.position.col + d.2⟩ : Position).col + dd.2⟩ :=
      ⟨⟨dd, hdd', rfl⟩, hc.1, hc.2.1⟩
    constructor
    · exact Relation.ReflTransGen.tail
        (Relation.ReflTransGen.tail Relation.ReflTransGen.refl s1) s2
    · exact Relation.ReflTransGen.tail
        (Relation.ReflTransGen.tail Relation.ReflTransGen.refl (stepFree_symm h1 s2))
        (stepFree_symm hp s1)
  · rw [List.mem_filterMap] at hmem
    obtain ⟨dd, hddmem, hsome⟩ := hmem
    split_ifs at hsome with hc
    cases hsome
    simp only [Bool.not_eq_false] at h1
    simp only [Bool.not_eq_true] at h2
    have hdd' : dd ∈ dirList := by
      simp only [List.mem_cons, List.not_mem_nil, or_false] at hddmem
      rcases hddmem with rfl | rfl <;> decide
    have s1 : StepFree g.fences p.position
        ⟨p.position.row + d.1, p.position.col + d.2⟩ := ⟨⟨d, hd, rfl⟩, h1, h2⟩
    have s2 : StepFree g.fences
        (⟨p.position.row + d.1, p.position.col + d.2⟩ : Position)
        ⟨(⟨p.position.row + d.1, p.position.col + d.2⟩ : Position).row + dd.1,
          (⟨p.position.row + d.1, p.position.col + d.2⟩ : Position).col + dd.2⟩ :=
      ⟨⟨dd, hdd', rfl⟩, hc.1, hc.2.1⟩
    constructor
    · exact Relation.ReflTransGen.tail
        (Relation.ReflTransGen.tail Relation.ReflTransGen.refl s1) s2
    · exact Relation.ReflTransGen.tail
        (Relation.ReflTransGen.tail Relation.ReflTransGen.refl (stepFree_symm h1 s2))
        (stepFree_symm hp s1)
  · rw [List.mem_singleton] at hmem
    subst hmem
    simp only [Bool.not_eq_false] at h1
    simp only [Bool.not_eq_true] at h2
    have s1 : StepFree g.fences p.position
        ⟨p.position.row + d.1, p.position.col + d.2⟩ := ⟨⟨d, hd, rfl⟩, h1, h2⟩
    constructor
    · exact Relation.ReflTransGen.tail Relation.ReflTransGen.refl s1
    · exact Relation.ReflTransGen.tail Relation.ReflTransGen.refl (stepFree_symm hp s1)

theorem dirList_nonzero : ∀ d ∈ dirList, ¬(d.1 = 0 ∧ d.2 = 0) := by decide

theorem dirList_trichotomy : ∀ d0 ∈ dirList, ∀ d ∈ dirList,
    d = d0 ∨ (d.1 = -d0.1 ∧ d.2 = -d0.2) ∨ d.1 * d0.1 + d.2 * d0.2 = 0 := by decide

theorem dirList_perp_mem_diag : ∀ d0 ∈ dirList, ∀ d ∈ dirList,
    d.1 * d0.1 + d.2 * d0.2 = 0 →
    d ∈ (if d0.1 ≠ 0 then [((0 : Int), (-1 : Int)), ((0 : Int), (1 : Int))]
        else [((-1 : Int), (0 : Int)), ((1 : Int), (0 : Int))]) := by decide

theorem dirList_bound : ∀ d ∈ dirList, -1 ≤ d.1 ∧ d.1 ≤ 1 := by decide

/-- Core of C7: with two mutually distinct in-bounds pawns that are both
fence-connected to their opposite goal rows, a player with at least one open
edge at its cell cannot be without legal moves. -/
theorem getValidMoves_ne_nil_core (g : Game) (x y : Player)
    (hocc : ∀ q, isPositionOccupied g q = true ↔ q = x.position ∨ q = y.position)
    (hvx : isValidPosition x.position = true)
    (hvy : isValidPosition y.position = true)
    (hne : x.position ≠ y.position)
    (hcx : ConnGoal g.fences x) (hcy : ConnGoal g.fences y)
    (hgoals : (x.goalRow = 0 ∧ y.goalRow = 8) ∨ (x.goalRow = 8 ∧ y.goalRow = 0))
    (hex : ∃ z, StepFree g.fences x.position z) :
    getValidMoves g x ≠ [] := by
  intro hnil
  have hdirnil := movesForDir_eq_nil hnil
  have hstepx : ∀ z, StepFree g.fences x.position z → z = y.position := by
    rintro z ⟨⟨d, hd, hz⟩, hzv, hzb⟩
    subst hz
    have hzb' : isMovementBlocked g x.position
        ⟨x.position.row + d.1, x.position.col + d.2⟩ = false := hzb
    by_cases hzo : isPositionOccupied g
        (⟨x.position.row + d.1, x.position.col + d.2⟩ : Position) = true
    · rcases (hocc _).mp hzo with h | h
      · exfalso
        have h' : (⟨x.position.row + d.1, x.position.col + d.2⟩ : Position) =
            ⟨x.position.row, x.position.col⟩ := h
        rw [Position.mk.injEq] at h'
        obtain ⟨e1, e2⟩ := h'
        exact dirList_nonzero d hd ⟨by omega, by omega⟩
      · exact h
    · exfalso
      rw [Bool.not_eq_true] at hzo
      have heq := movesForDir_plain rfl hzv hzb' hzo
      rw [hdirnil d hd] at heq
      exact List.cons_ne_nil _ _ heq.symm
  obtain ⟨z0, hz0⟩ := hex
  have hz0y := hstepx z0 hz0
  rw [hz0y] at hz0
  obtain ⟨⟨d0, hd0, hyx⟩, -, hb0⟩ := hz0
  have hb0' : isMovementBlocked g x.position y.position = false := hb0
  have hoy : isPositionOccupied g y.position = true := (hocc _).mpr (Or.inr rfl)
  have hrow : y.position.row = x.position.row + d0.1 := by rw [hyx]
  have hcol : y.position.col = x.position.col + d0.2 := by rw [hyx]
  have hjfail : ¬(isValidPosition
        (⟨y.position.row + d0.1, y.position.col + d0.2⟩ : Position) = true ∧
      isMovementBlocked g y.position
        ⟨y.position.row + d0.1, y.position.col + d0.2⟩ = false ∧
      isPositionOccupied g
        ⟨y.position.row + d0.1, y.position.col + d0.2⟩ = false) := by
    rintro ⟨hjv, hjb, hjo⟩
    have heq := movesForDir_jump hyx rfl hvy hb0' hoy hjv hjb hjo
    rw [hdirnil d0 hd0] at heq
    exact List.cons_ne_nil _ _ heq.symm
  have hstepy : ∀ z, StepFree g.fences y.position z → z = x.position := by
    rintro z ⟨⟨d, hd, hz⟩, hzv, hzb⟩
    subst hz
    have hzb' : isMovementBlocked g y.position
        ⟨y.position.row + d.1, y.position.col + d.2⟩ = false := hzb
    rcases dirList_trichotomy d0 hd0 d hd with heqd | hneg | hperp
    · subst heqd
      exfalso
      by_cases hzo : isPositionOccupied g
          (⟨y.position.row + d.1, y.position.col + d.2⟩ : Position) = true
      · rcases (hocc _).mp hzo with h | h
        · have h' : (⟨y.position.row + d.1, y.position.col + d.2⟩ : Position) =
              ⟨x.position.row, x.position.col⟩ := h
          rw [Position.mk.injEq] at h'
          obtain ⟨e1, e2⟩ := h'
          exact dirList_nonzero d hd ⟨by omega, by omega⟩
        · have h' : (⟨y.position.row + d.1, y.position.col + d.2⟩ : Position) =
              ⟨y.position.row, y.position.col⟩ := h
          rw [Position.mk.injEq] at h'
          obtain ⟨e1, e2⟩ := h'
          exact dirList_nonzero d hd ⟨by omega, by omega⟩
      · rw [Bool.not_eq_true] at hzo
        exact hjfail ⟨hzv, hzb', hzo⟩
    · obtain ⟨e1, e2⟩ := hneg
      have hzr : y.position.row + d.1 = x.position.row := by omega
      have hzc : y.position.col + d.2 = x.position.col := by omega
      rw [hzr, hzc]
    · by_cases hzo : isPositionOccupied g
          (⟨y.position.row + d.1, y.position.col + d.2⟩ : Position) = true
      · rcases (hocc _).mp hzo with h | h
        · exact h
        · exfalso
          have h' : (⟨y.position.row + d.1, y.position.col + d.2⟩ : Position) =
              ⟨y.position.row, y.position.col⟩ := h
          rw [Position.mk.injEq] at h'
          obtain ⟨e1, e2⟩ := h'
          exact dirList_nonzero d hd ⟨by omega, by omega⟩
      · exfalso
        rw [Bool.not_eq_true] at hzo
        have hmem := movesForDir_diag_mem hyx hvy hb0' hoy hjfail
          (dirList_perp_mem_diag d0 hd0 d hd hperp) rfl hzv hzb' hzo
        rw [hdirnil d0 hd0] at hmem
        exact List.not_mem_nil _ hmem
  have hclosed : ∀ u q, (u = x.position ∨ u = y.position) → ReachFree g.fences u q →
      q = x.position ∨ q = y.position := by
    intro u q hu h
    induction h with
    | refl => exact hu
    | tail hr hstep ih =>
      rcases ih with h | h
      · rw [h] at hstep
        exact Or.inr (hstepx _ hstep)
      · rw [h] at hstep
        exact Or.inl (hstepy _ hstep)
  obtain ⟨qx, hqxv, hqxr, hqxre⟩ := hcx
  obtain ⟨qy, hqyv, hqyr, hqyre⟩ := hcy
  have hq1 := hclosed _ _ (Or.inl rfl) hqxre
  have hq2 := hclosed _ _ (Or.inr rfl) hqyre
  have hd0b := dirList_bound d0 hd0
  rcases hq1 with rfl | rfl <;> rcases hq2 with rfl | rfl <;>
    rcases hgoals with ⟨h01, h02⟩ | ⟨h01, h02⟩ <;> omega

/-- A successful fence validation has checked every player's escape path on
the temporary fence set. -/
theorem isValidFencePlacement_paths {g : Game} {fence : Fence}
    (h : isValidFencePlacement g fence = true) :
    ∀ player ∈ g.players, hasPathToGoal player (g.fences ++ [fence]) = true := by
  unfold isValidFencePlacement at h
  split_ifs at h
  rw [List.all_eq_true] at h
  exact fun player hp => h player hp

theorem pair_lookup {a b p : Player} {idx : Nat} (h : [a, b].get? idx = some p) :
    (idx = 0 ∧ p = a) ∨ (idx = 1 ∧ p = b) := by
  rcases idx with _ | _ | n
  · exact Or.inl ⟨rfl, (Option.some.inj h).symm⟩
  · exact Or.inr ⟨rfl, (Option.some.inj h).symm⟩
  · exact Option.noConfusion h

theorem inv_init : INV initGame := by
  refine ⟨⟨⟨8, 4⟩, 0, 10⟩, ⟨⟨0, 4⟩, 8, 10⟩, rfl, by decide, by decide, by decide,
    rfl, rfl, ?_, ?_, ?_, ?_, ?_⟩
  · exact (hasPathToGoal_iff ⟨⟨8, 4⟩, 0, 10⟩ [] (by decide)).mp (by decide)
  · exact (hasPathToGoal_iff ⟨⟨0, 4⟩, 8, 10⟩ [] (by decide)).mp (by decide)
  · exact ⟨⟨7, 4⟩, ⟨⟨(-1, 0), by decide, by decide⟩, by decide, by decide⟩⟩
  · exact ⟨⟨1, 4⟩, ⟨⟨(1, 0), by decide, by decide⟩, by decide, by decide⟩⟩
  · intro
    exact ⟨by decide, by decide⟩

theorem inv_step {g g' : Game} (hinv : INV g) (hs : GameStep g g') : INV g' := by
  obtain ⟨a, b, hpl, hva, hvb, hab, hga, hgb, hca, hcb, hea, heb, hgo⟩ := hinv
  cases hs with
  | movePawn target p hover hget hmem =>
    rw [hpl] at hget
    have hocc := isPositionOccupied_pair hpl
    obtain ⟨hvt, hto⟩ := mem_getValidMoves_valid_unoccupied hmem
    have htn : ¬(target = a.position ∨ target = b.position) := by
      intro hcase
      have := (hocc target).mpr hcase
      rw [hto] at this
      exact Bool.false_ne_true this
    rcases pair_lookup hget with ⟨hidx, heq⟩ | ⟨hidx, heq⟩ <;> rw [heq] at hmem
    · have hreach := mem_getValidMoves_reach hva hmem
      have hsp : setPlayerPos g.currentPlayerIndex target g.players =
          [{ a with position := target }, b] := by
        rw [hpl, hidx]
        rfl
      refine ⟨{ a with position := target }, b, ?_, hvt, hvb, ?_, hga, hgb, ?_, hcb,
        ?_, heb, ?_⟩
      · show (stepMove g target).players = _
        simp only [stepMove]
        exact hsp
      · intro h
        exact htn (Or.inr h)
      · obtain ⟨q, h1, h2, h3⟩ := hca
        exact ⟨q, h1, h2, hreach.2.trans h3⟩
      · have hne2 : target ≠ a.position := fun h => htn (Or.inl h)
        rcases Relation.ReflTransGen.cases_head hreach.2 with h | ⟨c, hstep, -⟩
        · exact absurd h hne2
        · exact ⟨c, hstep⟩
      · intro hgo2
        have hgg : (stepMove g target).gameOver =
            anyWon (setPlayerPos g.currentPlayerIndex target g.players) := rfl
        rw [hgg, hsp] at hgo2
        simp only [anyWon, List.any_cons, List.any_nil, Bool.or_false,
          Bool.or_eq_false_iff, Player.hasWon, decide_eq_false_iff_not] at hgo2
        constructor
        · have h1 := hgo2.1
          rw [hga] at h1
          exact h1
        · have h2 := hgo2.2
          rw [hgb] at h2
          exact h2
    · have hreach := mem_getValidMoves_reach hvb hmem
      have hsp : setPlayerPos g.currentPlayerIndex target g.players =
          [a, { b with position := target }] := by
        rw [hpl, hidx]
        rfl
      refine ⟨a, { b with position := target }, ?_, hva, hvt, ?_, hga, hgb, hca, ?_,
        hea, ?_, ?_⟩
      · show (stepMove g target).players = _
        simp only [stepMove]
        exact hsp
      · intro h
        exact htn (Or.inl h.symm)
      · obtain ⟨q, h1, h2, h3⟩ := hcb
        exact ⟨q, h1, h2, hreach.2.trans h3⟩
      · have hne2 : target ≠ b.position := fun h => htn (Or.inr h)
        rcases Relation.ReflTransGen.cases_head hreach.2 with h | ⟨c, hstep, -⟩
        · exact absurd h hne2
        · exact ⟨c, hstep⟩
      · intro hgo2
        have hgg : (stepMove g target).gameOver =
            anyWon (setPlayerPos g.currentPlayerIndex target g.players) := rfl
        rw [hgg, hsp] at hgo2
        simp only [anyWon, List.any_cons, List.any_nil, Bool.or_false,
          Bool.or_eq_false_iff, Player.hasWon, decide_eq_false_iff_not] at hgo2
        constructor
        · have h1 := hgo2.1
          rw [hga] at h1
          exact h1
        · have h2 := hgo2.2
          rw [hgb] at h2
          exact h2
  | placeFence fence p hover hget hfr hvalid =>
    rw [hpl] at hget
    have hpaths := isValidFencePlacement_paths hvalid
    rw [hpl] at hpaths
    have hca' : ConnGoal (g.fences ++ [fence]) a :=
      (hasPathToGoal_iff a _ hva).mp (hpaths a (by simp))
    have hcb' : ConnGoal (g.fences ++ [fence]) b :=
      (hasPathToGoal_iff b _ hvb).mp (hpaths b (by simp))
    have hrows := hgo hover
    have hopenA : ∃ z, StepFree (g.fences ++ [fence]) a.position z := by
      obtain ⟨q, hq1, hq2, hq3⟩ := hca'
      have hneq : a.position ≠ q := by
        intro h
        apply hrows.1
        rw [h, hq2, hga]
      rcases Relation.ReflTransGen.cases_head hq3 with h | ⟨c, hstep, -⟩
      · exact absurd h hneq
      · exact ⟨c, hstep⟩
    have hopenB : ∃ z, StepFree (g.fences ++ [fence]) b.position z := by
      obtain ⟨q, hq1, hq2, hq3⟩ := hcb'
      have hneq : b.position ≠ q := by
        intro h
        apply hrows.2
        rw [h, hq2, hgb]
      rcases Relation.ReflTransGen.cases_head hq3 with h | ⟨c, hstep, -⟩
      · exact absurd h hneq
      · exact ⟨c, hstep⟩
    rcases pair_lookup hget with ⟨hidx, -⟩ | ⟨hidx, -⟩
    · have hsp : decFencesAt g.currentPlayerIndex g.players =
          [{ a with fencesRemaining := a.fencesRemaining - 1 }, b] := by
        rw [hpl, hidx]
        rfl
      refine ⟨{ a with fencesRemaining := a.fencesRemaining - 1 }, b, ?_, hva, hvb,
        hab, hga, hgb, hca', hcb', hopenA, hopenB, ?_⟩
      · show (stepFence g fence).players = _
        simp only [stepFence]
        exact hsp
      · intro hgo2
        exact ⟨hrows.1, hrows.2⟩
    · have hsp : decFencesAt g.currentPlayerIndex g.players =
          [a, { b with fencesRemaining := b.fencesRemaining - 1 }] := by
        rw [hpl, hidx]
        rfl
      refine ⟨a, { b with fencesRemaining := b.fencesRemaining - 1 }, ?_, hva, hvb,
        hab, hga, hgb, hca', hcb', hopenA, hopenB, ?_⟩
      · show (stepFence g fence).players = _
        simp only [stepFence]
        exact hsp
      · intro hgo2
        exact ⟨hrows.1, hrows.2⟩

theorem inv_reachable {g : Game} (h : Reachable g) : INV g := by
  induction h with
  | refl => exact inv_init
  | tail hr hstep ih => exact inv_step ih hstep

/-- C7: in every game state reachable from the initial position by validated
pawn moves and fence placements, each of the two players has at least one
legal pawn move available (the fence validator's path check keeps both
players connected to their goal rows, and a connected pawn is never boxed
in). -/
theorem reachable_states_have_moves (g : Game) (hg : Reachable g) :
    ∀ p ∈ g.players, getValidMoves g p ≠ [] := by
  obtain ⟨a, b, hpl, hva, hvb, hab, hga, hgb, hca, hcb, hea, heb, -⟩ :=
    inv_reachable hg
  intro p hp
  rw [hpl] at hp
  simp only [List.mem_cons, List.not_mem_nil, or_false] at hp
  rcases hp with rfl | rfl
  · exact getValidMoves_ne_nil_core g p b (isPositionOccupied_pair hpl) hva hvb hab
      hca hcb (Or.inl ⟨hga, hgb⟩) hea
  · refine getValidMoves_ne_nil_core g p a ?_ hvb hva (fun h => hab h.symm) hcb hca
      (Or.inr ⟨hgb, hga⟩) heb
    intro q
    exact (isPositionOccupied_pair hpl q).trans or_comm

/-- Witness for C7 at a concrete input: on the initial board, player 1 has a
legal move. -/
theorem reachable_states_have_moves_witness :
    getValidMoves initGame ⟨⟨8, 4⟩, 0, 10⟩ ≠ [] :=
  reachable_states_have_moves initGame Relation.ReflTransGen.refl
    ⟨⟨8, 4⟩, 0, 10⟩ (by decide)

end Quoridor
